import Mathlib

/-!
Verification of the Copilot-Monitoring stream-capture pipeline
(`src/backend/copilot_logger.py`) against its natural-language specification.

The development shallowly embeds the Python module: JSON values become the
inductive `Json` (objects are insertion-ordered key/value lists, matching
Python dicts), Python runtime errors that the code can raise become the
`PyErr` error monad, and every helper of the module
(`_summarize_req_json`, `_summarize_resp_json`, `_reconstruct_sse_response`,
`_estimate_tokens`, the SSE chunk callback installed by `responseheaders`,
and the `response` hook) is translated into an executable Lean function.
-/

set_option maxHeartbeats 1000000
set_option maxRecDepth 8192

namespace CopilotMon

/-- JSON values as handled by `json.loads` / `json.dumps`: Python `None` is
`Json.null`, numbers are modelled as rationals (covering ints and floats),
objects are insertion-ordered association lists exactly like Python dicts. -/
inductive Json where
  | null
  | bool (b : Bool)
  | num (q : ℚ)
  | str (s : String)
  | arr (xs : List Json)
  | obj (kvs : List (String × Json))
deriving Repr

mutual

def jsonBeq : Json → Json → Bool
  | .null, .null => true
  | .bool a, .bool b => a == b
  | .num a, .num b => a == b
  | .str a, .str b => a == b
  | .arr a, .arr b => jsonListBeq a b
  | .obj a, .obj b => jsonKvsBeq a b
  | _, _ => false

def jsonListBeq : List Json → List Json → Bool
  | [], [] => true
  | a :: as, b :: bs => jsonBeq a b && jsonListBeq as bs
  | _, _ => false

def jsonKvsBeq : List (String × Json) → List (String × Json) → Bool
  | [], [] => true
  | (k, v) :: as, (k', v') :: bs => k == k' && jsonBeq v v' && jsonKvsBeq as bs
  | _, _ => false

end

mutual

theorem jsonBeq_iff : ∀ a b : Json, jsonBeq a b = true ↔ a = b
  | .null, .null => by simp [jsonBeq]
  | .bool a, .bool b => by simp [jsonBeq]
  | .num a, .num b => by simp [jsonBeq]
  | .str a, .str b => by simp [jsonBeq]
  | .arr a, .arr b => by
      simpa [jsonBeq] using jsonListBeq_iff a b
  | .obj a, .obj b => by
      simpa [jsonBeq] using jsonKvsBeq_iff a b
  | .null, .bool _ | .null, .num _ | .null, .str _ | .null, .arr _ | .null, .obj _ => by simp [jsonBeq]
  | .bool _, .null | .bool _, .num _ | .bool _, .str _ | .bool _, .arr _ | .bool _, .obj _ => by simp [jsonBeq]
  | .num _, .null | .num _, .bool _ | .num _, .str _ | .num _, .arr _ | .num _, .obj _ => by simp [jsonBeq]
  | .str _, .null | .str _, .bool _ | .str _, .num _ | .str _, .arr _ | .str _, .obj _ => by simp [jsonBeq]
  | .arr _, .null | .arr _, .bool _ | .arr _, .num _ | .arr _, .str _ | .arr _, .obj _ => by simp [jsonBeq]
  | .obj _, .null | .obj _, .bool _ | .obj _, .num _ | .obj _, .str _ | .obj _, .arr _ => by simp [jsonBeq]

theorem jsonListBeq_iff : ∀ a b : List Json, jsonListBeq a b = true ↔ a = b
  | [], [] => by simp [jsonListBeq]
  | a :: as, b :: bs => by
      simp [jsonListBeq, Bool.and_eq_true, jsonBeq_iff a b, jsonListBeq_iff as bs]
  | [], _ :: _ => by simp [jsonListBeq]
  | _ :: _, [] => by simp [jsonListBeq]

theorem jsonKvsBeq_iff : ∀ a b : List (String × Json), jsonKvsBeq a b = true ↔ a = b
  | [], [] => by simp [jsonKvsBeq]
  | (k, v) :: as, (k', v') :: bs => by
      simp [jsonKvsBeq, Bool.and_eq_true, jsonBeq_iff v v', jsonKvsBeq_iff as bs,
        beq_iff_eq, Prod.ext_iff, and_assoc]
  | [], _ :: _ => by simp [jsonKvsBeq]
  | _ :: _, [] => by simp [jsonKvsBeq]

end

instance : DecidableEq Json := fun a b => decidable_of_iff _ (jsonBeq_iff a b)

/-- Python runtime errors that the logger can actually raise and does not
catch (`TypeError`, `AttributeError`, `KeyError`). -/
inductive PyErr where
  | typeError
  | attributeError
  | keyError
deriving DecidableEq, Repr

/-- Python truthiness of a JSON value (`bool(x)`): `None`, `False`, `0`,
`""`, `[]` and `{}` are falsy, everything else is truthy. -/
def truthy : Json → Bool
  | .null => false
  | .bool b => b
  | .num q => q ≠ 0
  | .str s => s ≠ ""
  | .arr xs => xs ≠ []
  | .obj kvs => kvs ≠ []

def Json.isObj : Json → Bool
  | .obj _ => true
  | _ => false

def Json.isStr : Json → Bool
  | .str _ => true
  | _ => false

def Json.isArr : Json → Bool
  | .arr _ => true
  | _ => false

/-- Lookup in a Python dict modelled as an association list. -/
def lookupKey : List (String × Json) → String → Option Json
  | [], _ => none
  | (k', v) :: t, k => if k' = k then some v else lookupKey t k

/-- `d.get(k, default)` on an association list known to be a dict. -/
def getKeyD (kvs : List (String × Json)) (k : String) (d : Json) : Json :=
  match lookupKey kvs k with
  | some v => v
  | none => d

/-- `k in d` on an association list known to be a dict. -/
def hasKey (kvs : List (String × Json)) (k : String) : Bool :=
  (lookupKey kvs k).isSome

/-- Python dict assignment `d[k] = v`: updates the value in place if the key
exists (keeping its position), otherwise appends the key at the end. -/
def setKey : List (String × Json) → String → Json → List (String × Json)
  | [], k, v => [(k, v)]
  | (k', v') :: t, k, v => if k' = k then (k, v) :: t else (k', v') :: setKey t k v

/-- Does the character list `p` occur at the start of `l`? -/
def listStarts : List Char → List Char → Bool
  | [], _ => true
  | _ :: _, [] => false
  | p :: ps, c :: cs => p = c && listStarts ps cs

/-- Does the character list `pat` occur anywhere inside `l`? -/
def listHasInfix (pat : List Char) : List Char → Bool
  | [] => pat.isEmpty
  | c :: cs => listStarts pat (c :: cs) || listHasInfix pat cs

/-- Python `pat in s` for strings: substring containment. -/
def strContains (pat s : String) : Bool :=
  listHasInfix pat.data s.data

/-- Python numeric view of a value: ints/floats are numbers and `bool` is an
int subtype (`True == 1`, `False == 0`); everything else is non-numeric. -/
def pyNumVal : Json → Option ℚ
  | .num q => some q
  | .bool b => some (if b then 1 else 0)
  | _ => none

/-- Python `k in x`. Dicts test keys, lists test membership, strings test
substrings; numbers, booleans and `None` raise `TypeError`. -/
def pyIn (k : String) : Json → Except PyErr Bool
  | .obj kvs => .ok (hasKey kvs k)
  | .arr xs => .ok (xs.contains (Json.str k))
  | .str s => .ok (strContains k s)
  | _ => .error .typeError

/-- Python `x.get(k, d)`: only dicts have `.get`; any other receiver raises
`AttributeError`. -/
def pyDictGet (j : Json) (k : String) (d : Json) : Except PyErr Json :=
  match j with
  | .obj kvs => .ok (getKeyD kvs k d)
  | _ => .error .attributeError

/-- Python `x[k]` with a string key: dicts look the key up (raising
`KeyError` when absent); lists and strings want integer indices and raise
`TypeError`, as do all other values. -/
def pySubscript (j : Json) (k : String) : Except PyErr Json :=
  match j with
  | .obj kvs =>
    match lookupKey kvs k with
    | some v => .ok v
    | none => .error .keyError
  | _ => .error .typeError

/-- Python `x[k] = v` with a string key: only dicts support item assignment
with string keys; everything else raises `TypeError`. -/
def pySetItem (j : Json) (k : String) (v : Json) : Except PyErr Json :=
  match j with
  | .obj kvs => .ok (.obj (setKey kvs k v))
  | _ => .error .typeError

/-- Python `a + b` on JSON values: numbers (and bools-as-ints) add, strings
and lists concatenate, every mixed combination raises `TypeError`. -/
def pyAdd (a b : Json) : Except PyErr Json :=
  match pyNumVal a, pyNumVal b with
  | some x, some y => .ok (.num (x + y))
  | _, _ =>
    match a, b with
    | .str s, .str t => .ok (.str (s ++ t))
    | .arr s, .arr t => .ok (.arr (s ++ t))
    | _, _ => .error .typeError

/-- Python `a > 0`: defined for numbers and bools, `TypeError` otherwise. -/
def pyGtZero (a : Json) : Except PyErr Bool :=
  match pyNumVal a with
  | some x => .ok (x > 0)
  | none => .error .typeError

/-- Python `len(x)`: defined for strings, lists and dicts. -/
def pyLen : Json → Except PyErr Nat
  | .str s => .ok s.length
  | .arr xs => .ok xs.length
  | .obj kvs => .ok kvs.length
  | _ => .error .typeError

/-- Python `s + x` where `s` is a string accumulator (`full_content += ...`):
raises `TypeError` unless `x` is also a string. -/
def pyStrConcat (s : String) : Json → Except PyErr String
  | .str t => .ok (s ++ t)
  | _ => .error .typeError

/-! ### A model of `json.loads`

The logger parses SSE fragments and HTTP bodies with `json.loads`.  We model
it with an executable recursive-descent parser over the JSON grammar
(strict mode: no leading zeros, no control characters in strings, `NaN`-style
extensions omitted).  Lone `\uXXXX` surrogate escapes are treated as parse
failures.  The parser is fuel-indexed; the fuel supplied by `parseJson` is
large enough for any input that does not nest pathologically deeper than its
character count allows. -/

def jsonWsChar (c : Char) : Bool :=
  c = ' ' || c = '\t' || c = '\n' || c = '\r'

def skipWs (l : List Char) : List Char :=
  l.dropWhile jsonWsChar

/-- Value of one hexadecimal digit (code-point arithmetic, both letter
cases accepted). -/
def hexVal (c : Char) : Option Nat :=
  let n := c.toNat
  if 48 ≤ n ∧ n ≤ 57 then some (n - 48)
  else if 97 ≤ n ∧ n ≤ 102 then some (n - 87)
  else if 65 ≤ n ∧ n ≤ 70 then some (n - 55)
  else none

def parseHex4 : List Char → Option (Nat × List Char)
  | a :: b :: c :: d :: r =>
    match hexVal a, hexVal b, hexVal c, hexVal d with
    | some x, some y, some z, some w => some (((x * 16 + y) * 16 + z) * 16 + w, r)
    | _, _, _, _ => none
  | _ => none

def natOfDigits (l : List Char) : Nat :=
  l.foldl (fun a c => a * 10 + (c.toNat - 48)) 0

/-- Parse the fractional / exponent tail of a JSON number whose integer part
is `n` (with sign `neg`), returning the rational value. -/
def parseNumTail (n : Nat) (neg : Bool) (s : List Char) : Option (Json × List Char) :=
  let step1 : Option (ℚ × List Char) :=
    match s with
    | '.' :: r =>
      match r.takeWhile Char.isDigit with
      | [] => none
      | ds => some ((n : ℚ) + (natOfDigits ds : ℚ) / ((10 : ℚ) ^ ds.length), r.dropWhile Char.isDigit)
    | _ => some ((n : ℚ), s)
  match step1 with
  | none => none
  | some (q, s1) =>
    let step2 : Option (ℚ × List Char) :=
      match s1 with
      | 'e' :: r | 'E' :: r =>
        let (eneg, r1) :=
          match r with
          | '-' :: r' => (true, r')
          | '+' :: r' => (false, r')
          | _ => (false, r)
        match r1.takeWhile Char.isDigit with
        | [] => none
        | ds =>
          let e := natOfDigits ds
          some (if eneg then q / (10 : ℚ) ^ e else q * (10 : ℚ) ^ e, r1.dropWhile Char.isDigit)
      | _ => some (q, s1)
    match step2 with
    | none => none
    | some (q2, s2) => some (.num (if neg then -q2 else q2), s2)

/-- Parse a JSON number (strict grammar: optional minus, no leading zeros). -/
def parseNum (s : List Char) : Option (Json × List Char) :=
  let (neg, s1) :=
    match s with
    | '-' :: r => (true, r)
    | _ => (false, s)
  match s1 with
  | '0' :: r =>
    match r with
    | c :: _ =>
      if c.isDigit then none else parseNumTail 0 neg r
    | [] => parseNumTail 0 neg []
  | c :: _ =>
    if c.isDigit then
      parseNumTail (natOfDigits (s1.takeWhile Char.isDigit)) neg (s1.dropWhile Char.isDigit)
    else none
  | [] => none

mutual

def parseVal : Nat → List Char → Option (Json × List Char)
  | 0, _ => none
  | f + 1, s =>
    match s with
    | 'n' :: 'u' :: 'l' :: 'l' :: r => some (.null, r)
    | 't' :: 'r' :: 'u' :: 'e' :: r => some (.bool true, r)
    | 'f' :: 'a' :: 'l' :: 's' :: 'e' :: r => some (.bool false, r)
    | '"' :: r => parseStrRest f r []
    | '[' :: r =>
      (match skipWs r with
       | ']' :: r2 => some (.arr [], r2)
       | r2 => parseElems f r2 [])
    | '{' :: r =>
      (match skipWs r with
       | '}' :: r2 => some (.obj [], r2)
       | r2 => parseMembers f r2 [])
    | _ => parseNum s

def parseStrRest : Nat → List Char → List Char → Option (Json × List Char)
  | 0, _, _ => none
  | f + 1, s, acc =>
    match s with
    | [] => none
    | '"' :: r => some (.str ⟨acc.reverse⟩, r)
    | '\\' :: e :: r =>
      (match e with
       | '"' => parseStrRest f r ('"' :: acc)
       | '\\' => parseStrRest f r ('\\' :: acc)
       | '/' => parseStrRest f r ('/' :: acc)
       | 'b' => parseStrRest f r ('\x08' :: acc)
       | 'f' => parseStrRest f r ('\x0c' :: acc)
       | 'n' => parseStrRest f r ('\n' :: acc)
       | 'r' => parseStrRest f r ('\r' :: acc)
       | 't' => parseStrRest f r ('\t' :: acc)
       | 'u' =>
         (match parseHex4 r with
          | some (n, r2) =>
            if 0xD800 ≤ n ∧ n ≤ 0xDFFF then none
            else parseStrRest f r2 (Char.ofNat n :: acc)
          | none => none)
       | _ => none)
    | c :: r => if c.toNat < 0x20 then none else parseStrRest f r (c :: acc)

def parseElems : Nat → List Char → List Json → Option (Json × List Char)
  | 0, _, _ => none
  | f + 1, s, acc =>
    match parseVal f (skipWs s) with
    | some (v, r) =>
      (match skipWs r with
       | ',' :: r2 => parseElems f r2 (v :: acc)
       | ']' :: r2 => some (.arr (acc.reverse ++ [v]), r2)
       | _ => none)
    | none => none

def parseMembers : Nat → List Char → List (String × Json) → Option (Json × List Char)
  | 0, _, _ => none
  | f + 1, s, acc =>
    match skipWs s with
    | '"' :: r =>
      (match parseStrRest f r [] with
       | some (.str k, r2) =>
         (match skipWs r2 with
          | ':' :: r3 =>
            (match parseVal f (skipWs r3) with
             | some (v, r4) =>
               (match skipWs r4 with
                | ',' :: r5 => parseMembers f r5 (setKey acc k v)
                | '}' :: r5 => some (.obj (setKey acc k v), r5)
                | _ => none)
             | none => none)
          | _ => none)
       | _ => none)
    | _ => none

end

/-- `json.loads` on a character sequence: parse one value surrounded by
optional whitespace; anything else fails (`JSONDecodeError`). -/
def parseJson (s : List Char) : Option Json :=
  match parseVal (4 * s.length + 16) (skipWs s) with
  | some (j, r) => if skipWs r = [] then some j else none
  | none => none

/-! ### Text helpers: `str.strip`, `str.split("\n")`, `bytes.decode` -/

/-- The whitespace characters stripped by Python `str.strip()` (ASCII part). -/
def pyIsSpace (c : Char) : Bool :=
  c = ' ' || c = '\t' || c = '\n' || c = '\r' || c = '\x0b' || c = '\x0c'

def dropLeadingWs (l : List Char) : List Char :=
  l.dropWhile pyIsSpace

def dropTrailingWs (l : List Char) : List Char :=
  (l.reverse.dropWhile pyIsSpace).reverse

/-- Python `s.strip()`. -/
def pstrip (l : List Char) : List Char :=
  dropTrailingWs (dropLeadingWs l)

/-- Python `lines = data.split("\n"); partial = lines.pop()`: the first
component lists the completed lines, the second is the trailing segment after
the last newline (always present, possibly empty). -/
def splitPartial : List Char → List (List Char) × List Char
  | [] => ([], [])
  | c :: cs =>
    if c = '\n' then ([] :: (splitPartial cs).1, (splitPartial cs).2)
    else
      match (splitPartial cs).1 with
      | [] => ([], c :: (splitPartial cs).2)
      | l :: ls => ((c :: l) :: ls, (splitPartial cs).2)

/-- The U+FFFD replacement character emitted by `errors="replace"`. -/
def replChar : Char := '�'

def isContByte (b : Nat) : Bool := 0x80 ≤ b && b ≤ 0xBF

/-- Valid range of the first continuation byte of a three-byte sequence
(excludes overlong encodings and surrogates, per RFC 3629 / CPython). -/
def okSecondOf3 (b b2 : Nat) : Bool :=
  if b = 0xE0 then 0xA0 ≤ b2 && b2 ≤ 0xBF
  else if b = 0xED then 0x80 ≤ b2 && b2 ≤ 0x9F
  else isContByte b2

/-- Valid range of the first continuation byte of a four-byte sequence. -/
def okSecondOf4 (b b2 : Nat) : Bool :=
  if b = 0xF0 then 0x90 ≤ b2 && b2 ≤ 0xBF
  else if b = 0xF4 then 0x80 ≤ b2 && b2 ≤ 0x8F
  else isContByte b2

/-- Fuel-indexed body of the UTF-8 decoder; the fuel strictly exceeds the
number of remaining bytes, so the zero-fuel branch is never reached. -/
def utf8DecodeGo : Nat → List Nat → List Char
  | 0, _ => []
  | _ + 1, [] => []
  | f + 1, b :: bs =>
    if b ≤ 0x7F then Char.ofNat b :: utf8DecodeGo f bs
    else if 0xC2 ≤ b && b ≤ 0xDF then
      match bs with
      | b2 :: bs2 =>
        if isContByte b2 then
          Char.ofNat ((b - 0xC0) * 64 + (b2 - 0x80)) :: utf8DecodeGo f bs2
        else replChar :: utf8DecodeGo f (b2 :: bs2)
      | [] => [replChar]
    else if 0xE0 ≤ b && b ≤ 0xEF then
      match bs with
      | b2 :: bs2 =>
        if okSecondOf3 b b2 then
          match bs2 with
          | b3 :: bs3 =>
            if isContByte b3 then
              Char.ofNat (((b - 0xE0) * 64 + (b2 - 0x80)) * 64 + (b3 - 0x80)) :: utf8DecodeGo f bs3
            else replChar :: utf8DecodeGo f (b3 :: bs3)
          | [] => [replChar]
        else replChar :: utf8DecodeGo f (b2 :: bs2)
      | [] => [replChar]
    else if 0xF0 ≤ b && b ≤ 0xF4 then
      match bs with
      | b2 :: bs2 =>
        if okSecondOf4 b b2 then
          match bs2 with
          | b3 :: bs3 =>
            if isContByte b3 then
              match bs3 with
              | b4 :: bs4 =>
                if isContByte b4 then
                  Char.ofNat ((((b - 0xF0) * 64 + (b2 - 0x80)) * 64 + (b3 - 0x80)) * 64 + (b4 - 0x80))
                    :: utf8DecodeGo f bs4
                else replChar :: utf8DecodeGo f (b4 :: bs4)
              | [] => [replChar]
            else replChar :: utf8DecodeGo f (b3 :: bs3)
          | [] => [replChar]
        else replChar :: utf8DecodeGo f (b2 :: bs2)
      | [] => [replChar]
    else replChar :: utf8DecodeGo f bs

/-- Python `bytes.decode("utf-8", errors="replace")`: strict UTF-8 decoding
where each maximal invalid subpart is replaced by U+FFFD and decoding
resumes, so no input ever raises. -/
def utf8DecodeReplace (l : List Nat) : List Char := utf8DecodeGo (l.length + 1) l

/-! ### The streaming chunk callback (`CopilotLogger.responseheaders.on_chunk`)

Per-exchange streaming state lives in `flow.metadata` under the keys
`sse_buffer`, `sse_chunks` and `sse_bytes`; we bundle them into `SseState`.
`on_chunk` receives raw bytes; `b""` is the end-of-stream marker. -/

structure SseState where
  sse_buffer : List Char
  sse_chunks : List (List Char)
  sse_bytes : Nat
deriving DecidableEq, Repr

def initSse : SseState := ⟨[], [], 0⟩

def dataMarker : List Char := "data: ".data

/-- The complete-line branch of the `on_chunk` loop: strip the line, test for
the `data: ` marker, strip the payload, and drop empty or `[DONE]` frames. -/
def extractLine (l : List Char) : Option (List Char) :=
  if listStarts dataMarker (pstrip l) then
    if pstrip ((pstrip l).drop 6) ≠ [] ∧ pstrip ((pstrip l).drop 6) ≠ "[DONE]".data
    then some (pstrip ((pstrip l).drop 6)) else none
  else none

/-- A non-final text delivery: append to the buffer, split on newlines, keep
the last segment as the new buffer, run every complete line through
`extractLine`. -/
def onChunkText (st : SseState) (t : List Char) : SseState :=
  { st with sse_buffer := (splitPartial (st.sse_buffer ++ t)).2,
            sse_chunks := st.sse_chunks ++ (splitPartial (st.sse_buffer ++ t)).1.filterMap extractLine }

/-- The end-of-stream branch of `on_chunk`: flush the retained buffer.  Note
that, unlike the complete-line branch, the buffered line is *not* stripped
before the `data: ` test (only the payload after the marker is stripped). -/
def onChunkEos (st : SseState) : SseState :=
  if st.sse_buffer = [] then st
  else
    if listStarts dataMarker st.sse_buffer then
      if pstrip (st.sse_buffer.drop 6) ≠ [] ∧ pstrip (st.sse_buffer.drop 6) ≠ "[DONE]".data then
        { st with sse_chunks := st.sse_chunks ++ [pstrip (st.sse_buffer.drop 6)] }
      else st
    else st

/-- `on_chunk(chunk: bytes)`: `b""` flushes, anything else counts bytes and
feeds the lossily decoded text through the line splitter. -/
def on_chunk (st : SseState) (b : List Nat) : SseState :=
  if b = [] then onChunkEos st
  else onChunkText { st with sse_bytes := st.sse_bytes + b.length } (utf8DecodeReplace b)

/-- Feed a whole sequence of byte deliveries followed by the end-of-stream
marker, as mitmproxy does for a streamed response body. -/
def runSse (parts : List (List Nat)) : SseState :=
  on_chunk (parts.foldl on_chunk initSse) []

/-- Feed a sequence of text deliveries followed by end-of-stream (the
decoded-text view of `runSse`). -/
def runSseText (parts : List (List Char)) : SseState :=
  onChunkEos (parts.foldl onChunkText initSse)

/-! ### The stream aggregator (`_reconstruct_sse_response`) -/

/-- The duck-typed response shape (`model_type` in the source): `"chat"`
fragments carry `delta` choices, `"completion"` fragments carry `text`. -/
inductive MType where
  | chat
  | completion
deriving DecidableEq, Repr

/-- The loop state of `_reconstruct_sse_response`. -/
structure AggState where
  full_content : String
  role : Json
  finish_reason : Json
  final_usage : List (String × Json)
  metadata : List (String × Json)
  model_type : Option MType
deriving DecidableEq, Repr

def initAgg : AggState := ⟨"", .null, .null, [], [], none⟩

/-- The metadata and usage merge at the top of the aggregation loop: every
top-level key except `choices` is copied into the running metadata
(last-write-wins), and a dict-valued `usage` is merged field-by-field into
the running usage. -/
def metaUsageStep (st : AggState) (kvs : List (String × Json)) : AggState :=
  { st with
    metadata := kvs.foldl
      (fun m (p : String × Json) => if p.1 = "choices" then m else setKey m p.1 p.2) st.metadata
    final_usage :=
      match lookupKey kvs "usage" with
      | some (.obj u) => u.foldl (fun m (p : String × Json) => setKey m p.1 p.2) st.final_usage
      | _ => st.final_usage }

/-- Shape detection from the first informative choice: `delta` means chat,
`text` means completion (Python `in`, so a non-container choice raises). -/
def detectType (mt : Option MType) (c : Json) : Except PyErr (Option MType) :=
  match mt with
  | some m => .ok (some m)
  | none =>
    match pyIn "delta" c with
    | .error e => .error e
    | .ok hd =>
    if hd then .ok (some MType.chat)
    else
      match pyIn "text" c with
      | .error e => .error e
      | .ok ht => .ok (if ht then some MType.completion else none)

/-- Content (and chat role) extraction from the first choice, according to
the already-decided shape: returns the updated `(role, full_content)` pair,
the only loop variables this part of the source assigns. -/
def extractContent (mt : Option MType) (role : Json) (content : String) (c : Json) :
    Except PyErr (Json × String) :=
  match mt with
  | some MType.chat =>
    match pyDictGet c "delta" (.obj []) with
    | .error e => .error e
    | .ok delta =>
    match pyIn "role" delta with
    | .error e => .error e
    | .ok hr =>
    match (if hr then
             match pySubscript delta "role" with
             | .error e => .error e
             | .ok rv => .ok (if truthy rv then rv else role)
           else .ok role : Except PyErr Json) with
    | .error e => .error e
    | .ok role1 =>
    match pyIn "content" delta with
    | .error e => .error e
    | .ok hc =>
    if hc then
      match pySubscript delta "content" with
      | .error e => .error e
      | .ok cv =>
      if truthy cv then
        match pyStrConcat content cv with
        | .error e => .error e
        | .ok fc => .ok (role1, fc)
      else .ok (role1, content)
    else .ok (role1, content)
  | some MType.completion =>
    match pyIn "text" c with
    | .error e => .error e
    | .ok ht =>
    if ht then
      match pySubscript c "text" with
      | .error e => .error e
      | .ok tv =>
      if truthy tv then
        match pyStrConcat content tv with
        | .error e => .error e
        | .ok fc => .ok (role, fc)
      else .ok (role, content)
    else .ok (role, content)
  | none => .ok (role, content)

/-- `if choice.get("finish_reason"): finish_reason = choice.get("finish_reason")`:
the terminal field is overwritten by every truthy report. -/
def updateFinish (st : AggState) (c : Json) : Except PyErr AggState :=
  match pyDictGet c "finish_reason" .null with
  | .error e => .error e
  | .ok fr => .ok (if truthy fr then { st with finish_reason := fr } else st)

/-- One iteration of the aggregation loop on a fragment already parsed to a
dict `kvs`.  Uncaught Python errors (`TypeError` from `in` on a non-container
choice, `AttributeError` from `.get` on a non-dict, ...) surface as `.error`;
the `except (json.JSONDecodeError, IndexError)` clause of the source never
fires on a parsed dict. -/
def processData (st : AggState) (kvs : List (String × Json)) : Except PyErr AggState :=
  let st1 := metaUsageStep st kvs
  let choices := getKeyD kvs "choices" .null
  if ¬ truthy choices then .ok st1
  else
    match choices with
    | .arr [] => .ok st1
    | .arr (c :: _) =>
      if ¬ truthy c then .ok st1
      else
        match detectType st1.model_type c with
        | .error e => .error e
        | .ok mt =>
        match extractContent mt st1.role st1.full_content c with
        | .error e => .error e
        | .ok rc => updateFinish { st1 with model_type := mt, role := rc.1, full_content := rc.2 } c
    | _ => .ok st1

/-- One iteration of the aggregation loop on a raw fragment string:
whitespace-only fragments are skipped, parse failures are caught and logged,
parsed non-dicts are logged and skipped. -/
def processChunk (st : AggState) (s : List Char) : Except PyErr AggState :=
  if pstrip s = [] then .ok st
  else
    match parseJson s with
    | none => .ok st
    | some (.obj kvs) => processData st kvs
    | some _ => .ok st

/-- Assembly of the final consolidated response object from the loop state
(the tail of `_reconstruct_sse_response` after the loop). -/
def assembleSse (st : AggState) : Json :=
  let md := if st.final_usage ≠ [] then setKey st.metadata "usage" (.obj st.final_usage)
            else st.metadata
  let fr :=
    match st.model_type with
    | some .chat =>
      setKey (setKey md "object" (.str "chat.completion.aggregated")) "choices"
        (.arr [.obj [("index", .num 0),
                     ("message", .obj [("role", st.role), ("content", .str st.full_content)]),
                     ("finish_reason", st.finish_reason)]])
    | some .completion =>
      setKey (setKey md "object" (.str "text_completion.aggregated")) "choices"
        (.arr [.obj [("index", .num 0),
                     ("text", .str st.full_content),
                     ("finish_reason", st.finish_reason)]])
    | none =>
      setKey (setKey md "object" (.str "unknown.aggregated")) "choices"
        (.arr [.obj [("index", .num 0),
                     ("message", .obj [("content", .str "")]),
                     ("finish_reason", st.finish_reason)]])
  match lookupKey md "usage" with
  | some u => .obj (setKey fr "usage" u)
  | none => .obj fr

/-- `_reconstruct_sse_response(chunks)`. -/
def reconstruct_sse_response (chunks : List (List Char)) : Except PyErr Json :=
  match chunks.foldlM processChunk initAgg with
  | .error e => .error e
  | .ok st => .ok (assembleSse st)

/-! ### The content summarizers (`_summarize_req_json`, `_summarize_resp_json`) -/

/-- `s[:100] + "..."`: the truncation applied to every recognized textual
field.  Note the marker is appended unconditionally, also to short strings. -/
def truncStr (s : String) : String := s.take 100 ++ "..."

/-- Truncation of one element of the `messages` list. -/
def truncMsg (m : Json) : Json :=
  match m with
  | .obj mk =>
    match lookupKey mk "content" with
    | some (.str c) => .obj (setKey mk "content" (.str (truncStr c)))
    | _ => m
  | _ => m

def stepMessages (kvs : List (String × Json)) : List (String × Json) :=
  match lookupKey kvs "messages" with
  | some (.arr ms) => setKey kvs "messages" (.arr (ms.map truncMsg))
  | _ => kvs

/-- Truncation of a top-level string field (`prompt`, `suffix`). -/
def stepStrKey (k : String) (kvs : List (String × Json)) : List (String × Json) :=
  match lookupKey kvs k with
  | some (.str s) => setKey kvs k (.str (truncStr s))
  | _ => kvs

def stepPrediction (kvs : List (String × Json)) : List (String × Json) :=
  match lookupKey kvs "prediction" with
  | some (.obj pk) =>
    let pk2 :=
      match lookupKey pk "content" with
      | some (.str c) => setKey pk "content" (.str (truncStr c))
      | _ => pk
    setKey kvs "prediction" (.obj pk2)
  | _ => kvs

/-- An `extra.context` item is truncated only when it is a string longer
than 100 characters. -/
def truncCtxItem (it : Json) : Json :=
  match it with
  | .str s => if s.length > 100 then .str (truncStr s) else it
  | _ => it

def stepExtra (kvs : List (String × Json)) : List (String × Json) :=
  match lookupKey kvs "extra" with
  | some (.obj ek) =>
    let ek2 :=
      match lookupKey ek "context" with
      | some (.arr xs) => setKey ek "context" (.arr (xs.map truncCtxItem))
      | _ => ek
    setKey kvs "extra" (.obj ek2)
  | _ => kvs

/-- `_summarize_req_json(data)`: falsy or non-dict input is returned
unchanged; otherwise the five recognized shapes are truncated in order. -/
def summarize_req_json (data : Json) : Json :=
  match data with
  | .obj kvs =>
    if kvs = [] then data
    else .obj (stepExtra (stepPrediction (stepStrKey "suffix" (stepStrKey "prompt" (stepMessages kvs)))))
  | _ => data

/-- Truncation of one element of a response `choices` list: chat-style
`message.content` and completion-style `text`. -/
def truncChoice (ch : Json) : Json :=
  match ch with
  | .obj ck =>
    let ck1 :=
      match lookupKey ck "message" with
      | some (.obj mk) =>
        let mk2 :=
          match lookupKey mk "content" with
          | some (.str c) => setKey mk "content" (.str (truncStr c))
          | _ => mk
        setKey ck "message" (.obj mk2)
      | _ => ck
    match lookupKey ck1 "text" with
    | some (.str t) => .obj (setKey ck1 "text" (.str (truncStr t)))
    | _ => .obj ck1
  | _ => ch

/-- `_summarize_resp_json(data)`. -/
def summarize_resp_json (data : Json) : Json :=
  match data with
  | .obj kvs =>
    if kvs = [] then data
    else
      match lookupKey kvs "choices" with
      | some (.arr cs) => .obj (setKey kvs "choices" (.arr (cs.map truncChoice)))
      | _ => .obj kvs
  | _ => data

mutual

/-- Structural shape of a JSON value: erases string contents but keeps every
key, every nesting level, the sibling order and each value's type.  Two
values with the same `jsonShape` have identical key sets and nesting. -/
def jsonShape : Json → Json
  | .str _ => .str ""
  | .arr xs => .arr (jsonShapeList xs)
  | .obj kvs => .obj (jsonShapeKvs kvs)
  | .null => .null
  | .bool b => .bool b
  | .num q => .num q

def jsonShapeList : List Json → List Json
  | [] => []
  | x :: xs => jsonShape x :: jsonShapeList xs

def jsonShapeKvs : List (String × Json) → List (String × Json)
  | [] => []
  | (k, v) :: t => (k, jsonShape v) :: jsonShapeKvs t

end

/-! ### Token estimation (`_estimate_tokens`) -/

/-- Python `round(n / 4)` for a natural `n`: true division followed by
banker's rounding (round-half-to-even). -/
def estRound (n : Nat) : Nat :=
  let q := n / 4
  match n % 4 with
  | 2 => if q % 2 = 0 then q else q + 1
  | 3 => q + 1
  | _ => q

/-- `_estimate_tokens(text)`: 0 for falsy input, else `round(len(text)/4)`
(raising `TypeError` when a truthy non-sized value sneaks in, as `len`
does). -/
def estimate_tokens (j : Json) : Except PyErr Json :=
  if ¬ truthy j then .ok (.num 0)
  else do
    let n ← pyLen j
    pure (.num (estRound n))

/-! ### The `response` hook: metrics, usage normalization, model injection -/

def ALLOWED_HOSTS : List String :=
  ["api.githubcopilot.com", "api.individual.githubcopilot.com",
   "proxy.githubcopilot.com", "proxy.individual.githubcopilot.com"]

def is_copilot_host (h : String) : Bool := ALLOWED_HOSTS.contains h

/-- ASCII lowering, modelling `str.lower()` on header values. -/
def asciiLower (c : Char) : Char :=
  if 'A' ≤ c && c ≤ 'Z' then Char.ofNat (c.toNat + 32) else c

def lowerStr (s : String) : String := ⟨s.data.map asciiLower⟩

def looks_like_sse (ct : String) : Bool := strContains "text/event-stream" (lowerStr ct)

/-- The streaming metadata left on a flow by `on_chunk` (`sse_chunks` and
`sse_bytes`); its presence is how `response` recognizes an SSE exchange. -/
structure SseMeta where
  chunks : List (List Char)
  bytes : Nat
deriving DecidableEq, Repr

/-- The inputs of the lifecycle hooks for one exchange: the request line,
timestamps, contents, content types and the per-flow metadata. -/
structure Flow where
  host : String
  method : String
  path : String
  hasResponse : Bool
  reqTsStart : Option ℚ
  tReqStartMeta : Option ℚ
  respTsStart : Option ℚ
  respTsEnd : Option ℚ
  reqContent : List Char
  respContent : List Char
  reqCt : String
  respCt : String
  status : Int
  sse : Option SseMeta
deriving DecidableEq, Repr

/-- `CopilotLogger.request`: gated on host and method; when it runs it only
records a fallback start timestamp in the flow metadata. -/
def requestHook (f : Flow) (now : ℚ) : Option ℚ :=
  if ¬ is_copilot_host f.host ∨ f.method = "GET" then none
  else some now

/-- `CopilotLogger.responseheaders`: gated like `request`; installs fresh
streaming state exactly when the response advertises an event-stream. -/
def responseheadersHook (f : Flow) : Option SseState :=
  if ¬ is_copilot_host f.host ∨ f.method = "GET" then none
  else if ¬ f.hasResponse then none
  else if looks_like_sse f.respCt then some initSse
  else none

/-- Python truthiness of an optional float (`None` and `0.0` are falsy). -/
def qTruthy : Option ℚ → Bool
  | some x => x ≠ 0
  | none => false

/-- `flow.request.timestamp_start or flow.metadata.get("t_req_start_meta")`. -/
def tReqOf (f : Flow) : Option ℚ :=
  if qTruthy f.reqTsStart then f.reqTsStart else f.tReqStartMeta

/-- `(a - b) if (a and b) else None`, the timing pattern of the hook
(`_safe_float` is the identity on floats). -/
def subIfTruthy (a b : Option ℚ) : Option ℚ :=
  if qTruthy a && qTruthy b then some (a.getD 0 - b.getD 0) else none

def ttfbOf (f : Flow) : Option ℚ := subIfTruthy f.respTsStart (tReqOf f)

def latencyTotalOf (f : Flow) : Option ℚ := subIfTruthy f.respTsEnd (tReqOf f)

def streaming_duration_of (f : Flow) : Option ℚ := subIfTruthy f.respTsEnd f.respTsStart

/-- `_safe_json(b)`: empty bodies give `None`, parse failures give the
sentinel error object with a 1000-character excerpt. -/
def safe_json (b : List Char) : Json :=
  if b = [] then .null
  else
    match parseJson b with
    | some j => j
    | none => .obj [("error", .str "invalid json"), ("content", .str ⟨b.take 1000⟩)]

def reqJsonFullOf (f : Flow) : Json :=
  if strContains "application/json" f.reqCt then safe_json f.reqContent else .null

/-- The final response JSON: the aggregated SSE reconstruction when
streaming state exists, the parsed body for JSON responses, `None`
otherwise. -/
def finalRespJsonOf (f : Flow) : Except PyErr Json :=
  match f.sse with
  | some m => reconstruct_sse_response m.chunks
  | none =>
    if strContains "application/json" f.respCt then .ok (safe_json f.respContent)
    else .ok .null

/-- The request-side token hint: `extra.prompt_tokens + extra.suffix_tokens`
when their sum is positive. -/
def extraPromptOf (rq : Json) : Except PyErr Json := do
  if truthy rq then do
    let ex ← pyDictGet rq "extra" .null
    match ex with
    | .obj e => do
      let p := getKeyD e "prompt_tokens" .null
      let s := getKeyD e "suffix_tokens" .null
      let t0 : Json := .num 0
      let t1 ← if p ≠ .null then pyAdd t0 p else pure t0
      let t2 ← if s ≠ .null then pyAdd t1 s else pure t1
      let gt ← pyGtZero t2
      pure (if gt then t2 else Json.null)
    | _ => pure .null
  else pure .null

/-- The character-count fallback for completion tokens, reading the first
choice of the final response JSON. -/
def estimateFromChoices (fj : Json) : Except PyErr Json := do
  let choices ← pyDictGet fj "choices" .null
  match choices with
  | .arr (c :: _) => do
    let ht ← pyIn "text" c
    let tv1 ←
      if ht then do
        let tv ← pySubscript c "text"
        pure (if tv.isStr then some tv else none)
      else pure (none : Option Json)
    let tc ←
      match tv1 with
      | some tv => pure tv
      | none => do
        let hm ← pyIn "message" c
        if hm then do
          let mv ← pyDictGet c "message" .null
          match mv with
          | .obj mk => pure (getKeyD mk "content" (.str ""))
          | _ => pure (Json.str "")
        else pure (Json.str "")
    if truthy tc then estimate_tokens tc else pure .null
  | _ => pure .null

/-- The `(prompt_tokens, completion_tokens)` pair after the request hint,
the response usage override and the estimation fallback. -/
def tokensOf (f : Flow) (fj : Json) : Except PyErr (Json × Json) := do
  let pt ← extraPromptOf (reqJsonFullOf f)
  let pc ←
    if truthy fj then do
      let u ← pyDictGet fj "usage" .null
      match u with
      | .obj uu => pure (getKeyD uu "prompt_tokens" pt, getKeyD uu "completion_tokens" .null)
      | _ => pure (pt, Json.null)
    else pure (pt, Json.null)
  let c2 ←
    if pc.2 = .null ∧ truthy fj then estimateFromChoices fj else pure pc.2
  pure (pc.1, c2)

/-- `output_tps`: computed only when completion tokens are known and the
streaming duration exceeds `1e-9` seconds. -/
def output_tps_of (c : Json) (d : Option ℚ) : Except PyErr (Option ℚ) :=
  match d with
  | some x =>
    if c ≠ .null ∧ x > 1 / 1000000000 then
      match pyNumVal c with
      | some q => .ok (some (q / x))
      | none => .error .typeError
    else .ok none
  | none => .ok none

/-- `if k not in u and v is not None: u[k] = v` (the conditional fill of
prompt/completion counts into the usage dict). -/
def fillMissing (u : List (String × Json)) (k : String) (v : Json) : List (String × Json) :=
  if ¬ hasKey u k ∧ v ≠ .null then setKey u k v else u

/-- The tail of the usage normalization: recompute `total_tokens` from the
(possibly just filled) usage dict `u2` and write the dict back into the
response object `kvs`. -/
def normalizeUsageTail (kvs u2 : List (String × Json)) : Except PyErr Json :=
  match pyAdd (getKeyD u2 "prompt_tokens" (.num 0)) (getKeyD u2 "completion_tokens" (.num 0)) with
  | .error e => .error e
  | .ok s1 =>
  match pyAdd s1 (getKeyD u2 "reasoning_tokens" (.num 0)) with
  | .error e => .error e
  | .ok t => .ok (.obj (setKey kvs "usage" (.obj (setKey u2 "total_tokens" t))))

/-- The usage-normalization block of `response`: synthesize a usage dict
when absent or malformed, fill in computed prompt/completion counts only for
missing keys, then recompute `total_tokens` from the values now present. -/
def normalizeUsage (rj : Json) (prompt completion : Json) : Except PyErr Json :=
  if rj = .null then .ok rj
  else
    match pyIn "usage" rj with
    | .error e => .error e
    | .ok hasU =>
    match (if hasU then
             match pyDictGet rj "usage" .null with
             | .error e => .error e
             | .ok u0 => .ok (!u0.isObj)
           else .ok true : Except PyErr Bool) with
    | .error e => .error e
    | .ok needNew =>
    match (if needNew then pySetItem rj "usage" (.obj []) else .ok rj) with
    | .error e => .error e
    | .ok rj2 =>
    match rj2 with
    | .obj kvs =>
      match getKeyD kvs "usage" .null with
      | .obj u =>
        normalizeUsageTail kvs
          (fillMissing (fillMissing u "prompt_tokens" prompt) "completion_tokens" completion)
      | _ => .ok rj2
    | _ => .ok rj2

/-- Python `s.split(sep)` for a single-character separator. -/
def splitOnChar (sep : Char) : List Char → List (List Char)
  | [] => [[]]
  | c :: cs =>
    let r := splitOnChar sep cs
    if c = sep then [] :: r
    else
      match r with
      | [] => [[c]]
      | l :: ls => (c :: l) :: ls

/-- Extraction of the path segment following `engines` (`path.split('/')`,
`index("engines") + 1`). -/
def pathEngineModel (path : String) : Json :=
  let parts := splitOnChar '/' path.data
  match parts.findIdx? (· = "engines".data) with
  | some i =>
    match parts.drop (i + 1) with
    | m :: _ => .str ⟨m⟩
    | [] => .null
  | none => .null

/-- Model-name resolution: response-declared, else request-declared, else
the path segment after `engines`, else `None` (all via truthiness). -/
def resolveModel (fj rq : Json) (path : String) : Except PyErr Json :=
  match (if truthy fj then pyDictGet fj "model" .null else .ok .null) with
  | .error e => .error e
  | .ok m1 =>
  if truthy fj ∧ truthy m1 then .ok m1
  else
    match (if truthy rq then pyDictGet rq "model" .null else .ok .null) with
    | .error e => .error e
    | .ok m2 =>
    if truthy rq ∧ truthy m2 then .ok m2
    else .ok (pathEngineModel path)

/-- `if x is not None: x["model"] = model`. -/
def injectModel (m : Json) (j : Json) : Except PyErr Json :=
  if j ≠ .null then pySetItem j "model" m else pure j

def SAVE_BODIES : Bool := false

/-- The emitted per-exchange telemetry record. -/
structure Record where
  ts_end : Option ℚ
  method : String
  host : String
  path : String
  status : Int
  ttfb_s : Option ℚ
  latency_total_s : Option ℚ
  streaming_duration_s : Option ℚ
  req_bytes : Nat
  resp_bytes : Nat
  output_tps : Option ℚ
  req_ct : String
  resp_ct : String
  req_json : Json
  resp_json : Json
deriving DecidableEq, Repr

/-- `if model: x["model"] = model` applied to one saved body. -/
def injectStep (m j : Json) : Except PyErr Json :=
  if truthy m then injectModel m j else .ok j

/-- Assembly of the emitted record from the flow and the computed pieces
(the dict literal at the end of `response`). -/
def mkRecord (f : Flow) (tps : Option ℚ) (rq rs : Json) : Record := {
  ts_end := f.respTsEnd
  method := f.method
  host := f.host
  path := f.path
  status := f.status
  ttfb_s := ttfbOf f
  latency_total_s := latencyTotalOf f
  streaming_duration_s := streaming_duration_of f
  req_bytes := f.reqContent.length
  resp_bytes := (match f.sse with | some m2 => m2.bytes | none => f.respContent.length)
  output_tps := tps
  req_ct := f.reqCt
  resp_ct := f.respCt
  req_json := rq
  resp_json := rs }

def responseBody (f : Flow) : Except PyErr (Option Record) :=
  match finalRespJsonOf f with
  | .error e => .error e
  | .ok fj =>
  match tokensOf f fj with
  | .error e => .error e
  | .ok pc =>
  match output_tps_of pc.2 (streaming_duration_of f) with
  | .error e => .error e
  | .ok tps =>
  match normalizeUsage (if SAVE_BODIES then fj else summarize_resp_json fj) pc.1 pc.2 with
  | .error e => .error e
  | .ok respSave1 =>
  match resolveModel fj (reqJsonFullOf f) f.path with
  | .error e => .error e
  | .ok m =>
  match injectStep m (if SAVE_BODIES then reqJsonFullOf f else summarize_req_json (reqJsonFullOf f)) with
  | .error e => .error e
  | .ok reqSave2 =>
  match injectStep m respSave1 with
  | .error e => .error e
  | .ok respSave2 =>
  .ok (some (mkRecord f tps reqSave2 respSave2))

/-- `CopilotLogger.response`: the host/method/response gate followed by the
body.  `.ok none` means the hook returned without emitting a record. -/
def response (f : Flow) : Except PyErr (Option Record) :=
  if ¬ is_copilot_host f.host ∨ ¬ f.hasResponse ∨ f.method = "GET" then .ok none
  else responseBody f

/-! ## Helper lemmas -/

deriving instance DecidableEq for Except

unseal Rat.add Rat.sub Rat.mul Rat.inv

theorem lookupKey_setKey_self (kvs : List (String × Json)) (k : String) (v : Json) :
    lookupKey (setKey kvs k v) k = some v := by
  induction kvs with
  | nil => simp [setKey, lookupKey]
  | cons p t ih =>
    by_cases h : p.1 = k
    · simp [setKey, h, lookupKey]
    · simp [setKey, h, lookupKey, ih]

theorem lookupKey_setKey_ne (kvs : List (String × Json)) (k k' : String) (v : Json)
    (h : k' ≠ k) : lookupKey (setKey kvs k v) k' = lookupKey kvs k' := by
  induction kvs with
  | nil => simp [setKey, lookupKey, Ne.symm h]
  | cons p t ih =>
    by_cases hp : p.1 = k
    · simp [setKey, hp, lookupKey, Ne.symm h]
    · simp [setKey, hp, lookupKey, ih]

/-- Inversion of a successful `responseBody`: names every intermediate stage
of the emission pipeline. -/
theorem responseBody_inv (f : Flow) (rec : Record)
    (h : responseBody f = .ok (some rec)) :
    ∃ fj pc tps respSave1 m reqSave2 respSave2,
      finalRespJsonOf f = .ok fj ∧
      tokensOf f fj = .ok pc ∧
      output_tps_of pc.2 (streaming_duration_of f) = .ok tps ∧
      normalizeUsage (summarize_resp_json fj) pc.1 pc.2 = .ok respSave1 ∧
      resolveModel fj (reqJsonFullOf f) f.path = .ok m ∧
      injectStep m (summarize_req_json (reqJsonFullOf f)) = .ok reqSave2 ∧
      injectStep m respSave1 = .ok respSave2 ∧
      rec = mkRecord f tps reqSave2 respSave2 := by
  unfold responseBody at h
  simp only [SAVE_BODIES, Bool.false_eq_true, if_false] at h
  cases hfj : finalRespJsonOf f with
  | error e => simp [hfj] at h
  | ok fj =>
  simp only [hfj] at h
  cases htk : tokensOf f fj with
  | error e => simp [htk] at h
  | ok pc =>
  simp only [htk] at h
  cases htps : output_tps_of pc.2 (streaming_duration_of f) with
  | error e => simp [htps] at h
  | ok tps =>
  simp only [htps] at h
  cases hnu : normalizeUsage (summarize_resp_json fj) pc.1 pc.2 with
  | error e => simp [hnu] at h
  | ok rs1 =>
  simp only [hnu] at h
  cases hm : resolveModel fj (reqJsonFullOf f) f.path with
  | error e => simp [hm] at h
  | ok m =>
  simp only [hm] at h
  cases hrq : injectStep m (summarize_req_json (reqJsonFullOf f)) with
  | error e => simp [hrq] at h
  | ok rq2 =>
  simp only [hrq] at h
  cases hrs : injectStep m rs1 with
  | error e => simp [hrs] at h
  | ok rs2 =>
  simp only [hrs, Except.ok.injEq, Option.some.injEq] at h
  exact ⟨fj, pc, tps, rs1, m, rq2, rs2, rfl, htk, htps, hnu, hm, hrq, hrs, h.symm⟩

/-- Inversion of a successful `response` that produced a record: the gate
passed and `responseBody` produced the record. -/
theorem response_inv (f : Flow) (rec : Record)
    (h : response f = .ok (some rec)) :
    is_copilot_host f.host = true ∧ f.hasResponse = true ∧ f.method ≠ "GET" ∧
    responseBody f = .ok (some rec) := by
  unfold response at h
  by_cases hg : ¬ is_copilot_host f.host ∨ ¬ f.hasResponse ∨ f.method = "GET"
  · rw [if_pos hg] at h; cases h
  · rw [if_neg hg] at h
    push_neg at hg
    exact ⟨by simpa using hg.1, by simpa using hg.2.1, hg.2.2, h⟩

/-! ## Claim C9 -/

/-- Claim C9: a record is emitted only for exchanges to one of the four
fixed allowed Copilot hosts with a non-GET method; for any other host, or
any GET exchange, the `request`, `responseheaders` and `response` hooks
return without creating per-exchange state or emitting a record. -/
theorem C9_host_method_gating (f : Flow) (now : ℚ)
    (h : ¬ is_copilot_host f.host ∨ f.method = "GET") :
    ALLOWED_HOSTS.length = 4 ∧
    requestHook f now = none ∧
    responseheadersHook f = none ∧
    response f = .ok none := by
  refine ⟨rfl, ?_, ?_, ?_⟩
  · unfold requestHook; rw [if_pos h]
  · unfold responseheadersHook; rw [if_pos h]
  · unfold response
    rcases h with h | h
    · rw [if_pos (Or.inl h)]
    · rw [if_pos (Or.inr (Or.inr h))]

/-- Witness for C9 at a concrete disallowed host. -/
def flowOtherHost : Flow := {
  host := "example.com"
  method := "POST"
  path := "/chat/completions"
  hasResponse := true
  reqTsStart := some 10
  tReqStartMeta := none
  respTsStart := some 12
  respTsEnd := some 14
  reqContent := []
  respContent := []
  reqCt := "application/json"
  respCt := "application/json"
  status := 200
  sse := none }

theorem C9_host_method_gating_witness :
    (¬ is_copilot_host flowOtherHost.host ∨ flowOtherHost.method = "GET") ∧
    (ALLOWED_HOSTS.length = 4 ∧
     requestHook flowOtherHost 1 = none ∧
     responseheadersHook flowOtherHost = none ∧
     response flowOtherHost = .ok none) :=
  ⟨Or.inl (by decide), C9_host_method_gating flowOtherHost 1 (Or.inl (by decide))⟩

/-! ## Claim C7 -/

theorem output_tps_of_spec (c : Json) (d : Option ℚ) (t : Option ℚ)
    (h : output_tps_of c d = .ok t) :
    ((c = .null ∨ d = none ∨ ∀ x, d = some x → x ≤ 1 / 1000000000) → t = none) ∧
    (∀ x q, d = some x → 1 / 1000000000 < x → pyNumVal c = some q → t = some (q / x)) := by
  constructor
  · intro hnull
    cases d with
    | none =>
      simp only [output_tps_of, Except.ok.injEq] at h
      exact h.symm
    | some x =>
      by_cases hcond : c ≠ Json.null ∧ x > 1 / 1000000000
      · exfalso
        rcases hnull with hc | hdn | hle
        · exact hcond.1 hc
        · cases hdn
        · exact absurd (hle x rfl) (not_le.mpr hcond.2)
      · simp only [output_tps_of, if_neg hcond, Except.ok.injEq] at h
        exact h.symm
  · intro x q hd hgt hnv
    subst hd
    have hcn : c ≠ Json.null := by
      intro hh
      rw [hh] at hnv
      simp [pyNumVal] at hnv
    simp only [output_tps_of, if_pos (And.intro hcn hgt), hnv, Except.ok.injEq] at h
    exact h.symm

/-- Claim C7: for every emitted record, `output_tps` is null whenever the
computed completion-token value is unknown (`None`) or the streaming
duration is absent or does not exceed 1e-9 seconds; otherwise it equals
completion tokens divided by the streaming duration.  In particular no
emitted record divides by a zero or near-zero duration. -/
theorem C7_output_tps (f : Flow) (rec : Record) (fj : Json) (pc : Json × Json)
    (hr : response f = .ok (some rec))
    (hfj : finalRespJsonOf f = .ok fj)
    (hpc : tokensOf f fj = .ok pc) :
    ((pc.2 = .null ∨ streaming_duration_of f = none ∨
        (∀ d, streaming_duration_of f = some d → d ≤ 1 / 1000000000)) →
      rec.output_tps = none) ∧
    (∀ d q, streaming_duration_of f = some d → 1 / 1000000000 < d →
      pyNumVal pc.2 = some q → rec.output_tps = some (q / d)) := by
  obtain ⟨_, _, _, hb⟩ := response_inv f rec hr
  obtain ⟨fj', pc', tps, rs1, m, rq2, rs2, hfj', hpc', htps, hnu, hm, hrq, hrs, hrec⟩ :=
    responseBody_inv f rec hb
  rw [hfj] at hfj'
  injection hfj' with h1
  subst h1
  rw [hpc] at hpc'
  injection hpc' with h2
  subst h2
  have hout : rec.output_tps = tps := by rw [hrec]; rfl
  obtain ⟨hA, hB⟩ := output_tps_of_spec pc.2 (streaming_duration_of f) tps htps
  constructor
  · intro hnull
    rw [hout]
    exact hA hnull
  · intro d q hd hgt hnv
    rw [hout]
    exact hB d q hd hgt hnv

/-- Witness for C7: a concrete JSON exchange where usage states 50
completion tokens over a 2-second stream, giving 25 tokens/second. -/
def flowTpsWitness : Flow := {
  host := "api.githubcopilot.com"
  method := "POST"
  path := "/chat/completions"
  hasResponse := true
  reqTsStart := some 10
  tReqStartMeta := none
  respTsStart := some 12
  respTsEnd := some 14
  reqContent := []
  respContent := "\x7b\"usage\":\x7b\"completion_tokens\":50\x7d\x7d".data
  reqCt := "application/json"
  respCt := "application/json"
  status := 200
  sse := none }

theorem C7_output_tps_witness :
    ∃ rec fj pc,
      response flowTpsWitness = .ok (some rec) ∧
      finalRespJsonOf flowTpsWitness = .ok fj ∧
      tokensOf flowTpsWitness fj = .ok pc ∧
      rec.output_tps = some 25 := by
  have hr : response flowTpsWitness =
      .ok (some (mkRecord flowTpsWitness (some 25)
        Json.null
        (Json.obj [("usage", Json.obj [("completion_tokens", Json.num 50),
          ("total_tokens", Json.num 50)])]))) := by decide
  have hfj : finalRespJsonOf flowTpsWitness =
      .ok (Json.obj [("usage", Json.obj [("completion_tokens", Json.num 50)])]) := by decide
  have hpc : tokensOf flowTpsWitness
      (Json.obj [("usage", Json.obj [("completion_tokens", Json.num 50)])]) =
      .ok (Json.null, Json.num 50) := by decide
  refine ⟨_, _, _, hr, hfj, hpc, ?_⟩
  have hc := (C7_output_tps flowTpsWitness _ _ _ hr hfj hpc).2 2 50 (by decide) (by decide) (by decide)
  have h2 : some ((50 : ℚ) / 2) = some 25 := by norm_num
  exact hc.trans h2

/-! ## Claim C3 -/

theorem getKeyD_setKey_ne (u : List (String × Json)) (k k' : String) (v d : Json)
    (h : k' ≠ k) : getKeyD (setKey u k v) k' d = getKeyD u k' d := by
  simp [getKeyD, lookupKey_setKey_ne u k k' v h]

theorem normalizeUsageTail_spec (kvs u2 : List (String × Json)) (rj' : Json)
    (h : normalizeUsageTail kvs u2 = .ok rj') :
    ∃ u t,
      rj' = .obj (setKey kvs "usage" (.obj u)) ∧
      lookupKey u "total_tokens" = some t ∧
      ∃ s, pyAdd (getKeyD u "prompt_tokens" (.num 0)) (getKeyD u "completion_tokens" (.num 0)) = .ok s ∧
        pyAdd s (getKeyD u "reasoning_tokens" (.num 0)) = .ok t := by
  unfold normalizeUsageTail at h
  cases h1 : pyAdd (getKeyD u2 "prompt_tokens" (.num 0)) (getKeyD u2 "completion_tokens" (.num 0)) with
  | error e => simp only [h1] at h; cases h
  | ok s1 =>
  simp only [h1] at h
  cases h2 : pyAdd s1 (getKeyD u2 "reasoning_tokens" (.num 0)) with
  | error e => simp only [h2] at h; cases h
  | ok t =>
  simp only [h2, Except.ok.injEq] at h
  subst h
  refine ⟨setKey u2 "total_tokens" t, t, rfl, lookupKey_setKey_self u2 _ t, s1, ?_, ?_⟩
  · rw [getKeyD_setKey_ne u2 _ _ t _ (by decide), getKeyD_setKey_ne u2 _ _ t _ (by decide)]
    exact h1
  · rw [getKeyD_setKey_ne u2 _ _ t _ (by decide)]
    exact h2

theorem normalizeUsage_spec (rj prompt completion rj' : Json)
    (h : normalizeUsage rj prompt completion = .ok rj') (hne : rj' ≠ .null) :
    ∃ kvs u t,
      rj' = .obj kvs ∧
      lookupKey kvs "usage" = some (.obj u) ∧
      lookupKey u "total_tokens" = some t ∧
      ∃ s, pyAdd (getKeyD u "prompt_tokens" (.num 0)) (getKeyD u "completion_tokens" (.num 0)) = .ok s ∧
        pyAdd s (getKeyD u "reasoning_tokens" (.num 0)) = .ok t := by
  unfold normalizeUsage at h
  by_cases h0 : rj = Json.null
  · rw [if_pos h0] at h; cases h; exact absurd h0 hne
  rw [if_neg h0] at h
  cases rj with
  | null => exact absurd rfl h0
  | bool b => simp [pyIn] at h
  | num q => simp [pyIn] at h
  | str s =>
    simp only [pyIn] at h
    by_cases hU : strContains "usage" s
    · simp [hU, pyDictGet] at h
    · simp [hU, pySetItem] at h
  | arr xs =>
    simp only [pyIn] at h
    by_cases hU : Json.str "usage" ∈ xs
    · simp [hU, pyDictGet] at h
    · simp [hU, pySetItem] at h
  | obj kvs0 =>
    simp only [pyIn] at h
    by_cases hU : hasKey kvs0 "usage"
    · simp only [hU, if_true, pyDictGet] at h
      by_cases hO : (getKeyD kvs0 "usage" Json.null).isObj
      · simp only [hO, Bool.not_true, Bool.false_eq_true, if_false] at h
        cases hu : getKeyD kvs0 "usage" Json.null with
        | obj u =>
          rw [hu] at h
          obtain ⟨u', t, heq, hlt, s, hs1, hs2⟩ := normalizeUsageTail_spec kvs0 _ rj' h
          exact ⟨setKey kvs0 "usage" (.obj u'), u', t, heq,
            by simp [lookupKey_setKey_self], hlt, s, hs1, hs2⟩
        | null => rw [hu] at hO; simp [Json.isObj] at hO
        | bool b => rw [hu] at hO; simp [Json.isObj] at hO
        | num q => rw [hu] at hO; simp [Json.isObj] at hO
        | str s => rw [hu] at hO; simp [Json.isObj] at hO
        | arr xs => rw [hu] at hO; simp [Json.isObj] at hO
      · simp only [Bool.not_eq_true] at hO
        simp only [hO, Bool.not_false, if_true, pySetItem] at h
        rw [show getKeyD (setKey kvs0 "usage" (Json.obj [])) "usage" Json.null = Json.obj [] from by
          simp [getKeyD, lookupKey_setKey_self]] at h
        obtain ⟨u', t, heq, hlt, s, hs1, hs2⟩ := normalizeUsageTail_spec _ _ rj' h
        exact ⟨_, u', t, heq, by simp [lookupKey_setKey_self], hlt, s, hs1, hs2⟩
    · simp only [Bool.not_eq_true] at hU
      simp only [hU, Bool.false_eq_true, if_false, if_true, pySetItem] at h
      rw [show getKeyD (setKey kvs0 "usage" (Json.obj [])) "usage" Json.null = Json.obj [] from by
        simp [getKeyD, lookupKey_setKey_self]] at h
      obtain ⟨u', t, heq, hlt, s, hs1, hs2⟩ := normalizeUsageTail_spec _ _ rj' h
      exact ⟨_, u', t, heq, by simp [lookupKey_setKey_self], hlt, s, hs1, hs2⟩

/-- Model injection preserves nullness and the `usage` member of a saved
response object (it only touches the `model` key). -/
theorem injectStep_spec (m j j' : Json) (h : injectStep m j = .ok j') :
    (j = .null → j' = .null) ∧
    (∀ kvs, j = .obj kvs → ∃ kvs', j' = .obj kvs' ∧
      lookupKey kvs' "usage" = lookupKey kvs "usage") := by
  unfold injectStep injectModel at h
  by_cases hm : truthy m
  · simp only [hm, if_true] at h
    by_cases hj : j = Json.null
    · rw [if_neg (by simp [hj])] at h
      cases h
      exact ⟨fun _ => hj, fun kvs hk => by rw [hj] at hk; cases hk⟩
    · rw [if_pos hj] at h
      refine ⟨fun hh => absurd hh hj, fun kvs hk => ?_⟩
      subst hk
      simp only [pySetItem, Except.ok.injEq] at h
      exact ⟨setKey kvs "model" m, h.symm,
        lookupKey_setKey_ne kvs "model" "usage" m (by decide)⟩
  · simp only [hm, if_false] at h
    cases h
    exact ⟨fun hh => hh, fun kvs hk => ⟨kvs, hk, rfl⟩⟩

/-- Claim C3: for every emitted record whose response JSON is non-null, the
usage sub-object carries a `total_tokens` member equal to the sum of its
`prompt_tokens`, `completion_tokens` and `reasoning_tokens` members, each
treated as 0 when absent (stated both through the Python `+` the hook
executes and, for numeric members, as the rational sum). -/
theorem C3_total_tokens (f : Flow) (rec : Record)
    (hr : response f = .ok (some rec)) (hne : rec.resp_json ≠ .null) :
    ∃ kvs u t,
      rec.resp_json = .obj kvs ∧
      lookupKey kvs "usage" = some (.obj u) ∧
      lookupKey u "total_tokens" = some t ∧
      (∃ s, pyAdd (getKeyD u "prompt_tokens" (.num 0)) (getKeyD u "completion_tokens" (.num 0)) = .ok s ∧
        pyAdd s (getKeyD u "reasoning_tokens" (.num 0)) = .ok t) ∧
      (∀ pn cn rn : ℚ, getKeyD u "prompt_tokens" (.num 0) = .num pn →
        getKeyD u "completion_tokens" (.num 0) = .num cn →
        getKeyD u "reasoning_tokens" (.num 0) = .num rn →
        t = .num (pn + cn + rn)) := by
  obtain ⟨_, _, _, hb⟩ := response_inv f rec hr
  obtain ⟨fj, pc, tps, rs1, m, rq2, rs2, hfj, hpc, htps, hnu, hm, hrq, hrs, hrec⟩ :=
    responseBody_inv f rec hb
  have hrj : rec.resp_json = rs2 := by rw [hrec]; rfl
  obtain ⟨hnull2, hobj2⟩ := injectStep_spec m rs1 rs2 hrs
  have hrs1ne : rs1 ≠ Json.null := by
    intro hh
    exact hne (hrj.trans (hnull2 hh))
  obtain ⟨kvs1, u, t, hkvs1, hu, ht, s, hs1, hs2⟩ :=
    normalizeUsage_spec (summarize_resp_json fj) pc.1 pc.2 rs1 hnu hrs1ne
  obtain ⟨kvs2, hkvs2, hlk⟩ := hobj2 kvs1 hkvs1
  refine ⟨kvs2, u, t, hrj.trans hkvs2, hlk.trans hu, ht, ⟨s, hs1, hs2⟩, ?_⟩
  intro pn cn rn hpn hcn hrn
  rw [hpn, hcn] at hs1
  simp only [pyAdd, pyNumVal, Except.ok.injEq] at hs1
  rw [← hs1, hrn] at hs2
  simp only [pyAdd, pyNumVal, Except.ok.injEq] at hs2
  exact hs2.symm

/-- Witness for C3: a concrete JSON exchange whose usage carries prompt,
completion and reasoning counts; the emitted record totals them to 10. -/
def flowC3Witness : Flow := {
  host := "api.githubcopilot.com"
  method := "POST"
  path := "/x"
  hasResponse := true
  reqTsStart := some 10
  tReqStartMeta := none
  respTsStart := some 12
  respTsEnd := some 14
  reqContent := []
  respContent := "\x7b\"usage\":\x7b\"prompt_tokens\":3,\"completion_tokens\":5,\"reasoning_tokens\":2\x7d\x7d".data
  reqCt := "application/json"
  respCt := "application/json"
  status := 200
  sse := none }

def recC3Witness : Record :=
  mkRecord flowC3Witness (some (5 / 2)) Json.null
    (Json.obj [("usage", Json.obj [("prompt_tokens", .num 3), ("completion_tokens", .num 5),
      ("reasoning_tokens", .num 2), ("total_tokens", .num 10)])])

theorem C3_total_tokens_witness :
    (response flowC3Witness = .ok (some recC3Witness) ∧ recC3Witness.resp_json ≠ .null) ∧
    (∃ kvs u t,
      recC3Witness.resp_json = .obj kvs ∧
      lookupKey kvs "usage" = some (.obj u) ∧
      lookupKey u "total_tokens" = some t ∧
      (∃ s, pyAdd (getKeyD u "prompt_tokens" (.num 0)) (getKeyD u "completion_tokens" (.num 0)) = .ok s ∧
        pyAdd s (getKeyD u "reasoning_tokens" (.num 0)) = .ok t) ∧
      (∀ pn cn rn : ℚ, getKeyD u "prompt_tokens" (.num 0) = .num pn →
        getKeyD u "completion_tokens" (.num 0) = .num cn →
        getKeyD u "reasoning_tokens" (.num 0) = .num rn →
        t = .num (pn + cn + rn))) :=
  ⟨⟨by decide, by decide⟩,
   C3_total_tokens flowC3Witness recC3Witness (by decide) (by decide)⟩

/-! ## Claim C8 -/

/-- Modelled from the spec: the model name a JSON body declares is its
truthy `model` member (`None` for non-objects and absfor absent keys). -/
def declaredModel (j : Json) : Json :=
  match j with
  | .obj kvs => getKeyD kvs "model" .null
  | _ => .null

/-- Modelled from the spec: prefer the response-declared model name, else
the request-declared one, else the path segment following `engines`. -/
def specResolveModel (fj rq : Json) (path : String) : Json :=
  if truthy (declaredModel fj) then declaredModel fj
  else if truthy (declaredModel rq) then declaredModel rq
  else pathEngineModel path

theorem declaredModel_of_falsy (j : Json) (h : ¬ truthy j) : declaredModel j = .null := by
  cases j with
  | obj kvs =>
    have : kvs = [] := by simpa [truthy] using h
    simp [declaredModel, this, getKeyD, lookupKey]
  | null => rfl
  | bool b => rfl
  | num q => rfl
  | str s => rfl
  | arr xs => rfl

/-- A successful run of the hook's resolution chain computes exactly the
spec's resolution function. -/
theorem resolveModel_eq_spec (fj rq : Json) (path : String) (m : Json)
    (h : resolveModel fj rq path = .ok m) : m = specResolveModel fj rq path := by
  unfold resolveModel at h
  unfold specResolveModel
  have reqSide :
      (match (if truthy rq then pyDictGet rq "model" .null else .ok .null) with
        | .error e => (.error e : Except PyErr Json)
        | .ok m2 => if truthy rq ∧ truthy m2 then (.ok m2 : Except PyErr Json)
                    else .ok (pathEngineModel path)) = .ok m →
      m = if truthy (declaredModel rq) then declaredModel rq else pathEngineModel path := by
    intro hok
    by_cases h2 : truthy rq
    · rw [if_pos h2] at hok
      cases rq with
      | obj kvs =>
        simp only [pyDictGet] at hok
        by_cases h3 : truthy (getKeyD kvs "model" Json.null)
        · rw [if_pos ⟨h2, h3⟩] at hok
          injection hok with hok
          rw [if_pos (by simpa [declaredModel] using h3)]
          exact hok.symm
        · rw [if_neg (fun hc => h3 hc.2)] at hok
          injection hok with hok
          rw [if_neg (by simpa [declaredModel] using h3)]
          exact hok.symm
      | null => exact absurd h2 (by simp [truthy])
      | bool b => simp only [pyDictGet] at hok; cases hok
      | num q => simp only [pyDictGet] at hok; cases hok
      | str s => simp only [pyDictGet] at hok; cases hok
      | arr xs => simp only [pyDictGet] at hok; cases hok
    · rw [if_neg h2] at hok
      dsimp only at hok
      rw [if_neg (fun hc => h2 hc.1)] at hok
      injection hok with hok
      rw [if_neg (by simp [declaredModel_of_falsy rq h2, truthy])]
      exact hok.symm
  by_cases h1 : truthy fj
  · rw [if_pos h1] at h
    cases fj with
    | obj kvs =>
      simp only [pyDictGet] at h
      by_cases h3 : truthy (getKeyD kvs "model" Json.null)
      · rw [if_pos ⟨h1, h3⟩] at h
        injection h with h
        rw [if_pos (by simpa [declaredModel] using h3)]
        exact h.symm
      · rw [if_neg (fun hc => h3 hc.2)] at h
        rw [if_neg (by simpa [declaredModel] using h3)]
        exact reqSide h
    | null => exact absurd h1 (by simp [truthy])
    | bool b => simp only [pyDictGet] at h; cases h
    | num q => simp only [pyDictGet] at h; cases h
    | str s => simp only [pyDictGet] at h; cases h
    | arr xs => simp only [pyDictGet] at h; cases h
  · rw [if_neg h1] at h
    dsimp only at h
    rw [if_neg (fun hc => h1 hc.1)] at h
    rw [if_neg (by simp [declaredModel_of_falsy fj h1, truthy])]
    exact reqSide h

/-- When injection actually runs (truthy model), the result of a non-null
body is an object whose `model` member is exactly the resolved name. -/
theorem injectStep_model (m j j' : Json) (hm : truthy m) (h : injectStep m j = .ok j') :
    (j = .null → j' = .null) ∧
    (j ≠ .null → ∃ kvs', j' = .obj kvs' ∧ lookupKey kvs' "model" = some m) := by
  unfold injectStep injectModel at h
  simp only [hm, if_true] at h
  by_cases hj : j = Json.null
  · rw [if_neg (by simp [hj])] at h
    cases h
    exact ⟨fun _ => hj, fun hh => absurd hj hh⟩
  · rw [if_pos hj] at h
    refine ⟨fun hh => absurd hh hj, fun _ => ?_⟩
    cases j with
    | obj kvs =>
      simp only [pySetItem, Except.ok.injEq] at h
      exact ⟨setKey kvs "model" m, h.symm, lookupKey_setKey_self kvs "model" m⟩
    | null => exact absurd rfl hj
    | bool b => simp [pySetItem] at h
    | num q => simp [pySetItem] at h
    | str s => simp [pySetItem] at h
    | arr xs => simp [pySetItem] at h

/-- Claim C8: for every emitted record, the resolved model name is the
response-declared model when truthy, else the request-declared model when
truthy, else the path segment following an `engines` segment, else null;
and whenever a model name is resolved, every non-null emitted body (the
summarized request JSON and the summarized response JSON) carries that
model value. -/
theorem C8_model_resolution (f : Flow) (rec : Record) (fj : Json)
    (hr : response f = .ok (some rec))
    (hfj : finalRespJsonOf f = .ok fj) :
    ∃ m, resolveModel fj (reqJsonFullOf f) f.path = .ok m ∧
      m = specResolveModel fj (reqJsonFullOf f) f.path ∧
      (truthy m →
        (rec.req_json = .null ∨ ∃ kvs, rec.req_json = .obj kvs ∧ lookupKey kvs "model" = some m) ∧
        (rec.resp_json = .null ∨ ∃ kvs, rec.resp_json = .obj kvs ∧ lookupKey kvs "model" = some m)) := by
  obtain ⟨_, _, _, hb⟩ := response_inv f rec hr
  obtain ⟨fj', pc, tps, rs1, m, rq2, rs2, hfj', hpc, htps, hnu, hm, hrq, hrs, hrec⟩ :=
    responseBody_inv f rec hb
  rw [hfj] at hfj'
  injection hfj' with h1
  subst h1
  refine ⟨m, hm, resolveModel_eq_spec _ _ _ _ hm, fun htr => ?_⟩
  have hreq : rec.req_json = rq2 := by rw [hrec]; rfl
  have hresp : rec.resp_json = rs2 := by rw [hrec]; rfl
  obtain ⟨hq1, hq2⟩ := injectStep_model m _ rq2 htr hrq
  obtain ⟨hs1, hs2⟩ := injectStep_model m rs1 rs2 htr hrs
  constructor
  · by_cases hz : summarize_req_json (reqJsonFullOf f) = Json.null
    · exact Or.inl (hreq.trans (hq1 hz))
    · obtain ⟨kvs', he, hl⟩ := hq2 hz
      exact Or.inr ⟨kvs', hreq.trans he, hl⟩
  · by_cases hz : rs1 = Json.null
    · exact Or.inl (hresp.trans (hs1 hz))
    · obtain ⟨kvs', he, hl⟩ := hs2 hz
      exact Or.inr ⟨kvs', hresp.trans he, hl⟩

/-- Witness for C8: request declares model `m1`, response declares `m2`;
the resolved name is `m2` and both saved bodies carry it. -/
def flowC8Witness : Flow := {
  host := "api.githubcopilot.com"
  method := "POST"
  path := "/x"
  hasResponse := true
  reqTsStart := some 10
  tReqStartMeta := none
  respTsStart := some 12
  respTsEnd := some 14
  reqContent := "\x7b\"model\":\"m1\"\x7d".data
  respContent := "\x7b\"model\":\"m2\"\x7d".data
  reqCt := "application/json"
  respCt := "application/json"
  status := 200
  sse := none }

def recC8Witness : Record :=
  mkRecord flowC8Witness none
    (Json.obj [("model", .str "m2")])
    (Json.obj [("model", .str "m2"), ("usage", Json.obj [("total_tokens", .num 0)])])

theorem C8_model_resolution_witness :
    (response flowC8Witness = .ok (some recC8Witness) ∧
     finalRespJsonOf flowC8Witness = .ok (Json.obj [("model", .str "m2")])) ∧
    (∃ m, resolveModel (Json.obj [("model", .str "m2")]) (reqJsonFullOf flowC8Witness)
        flowC8Witness.path = .ok m ∧
      m = specResolveModel (Json.obj [("model", .str "m2")]) (reqJsonFullOf flowC8Witness)
        flowC8Witness.path ∧
      (truthy m →
        (recC8Witness.req_json = .null ∨
          ∃ kvs, recC8Witness.req_json = .obj kvs ∧ lookupKey kvs "model" = some m) ∧
        (recC8Witness.resp_json = .null ∨
          ∃ kvs, recC8Witness.resp_json = .obj kvs ∧ lookupKey kvs "model" = some m))) :=
  ⟨⟨by decide, by decide⟩,
   C8_model_resolution flowC8Witness recC8Witness (Json.obj [("model", .str "m2")])
     (by decide) (by decide)⟩

/-! ## Claim C10 -/

/-- Truncation of a fragment dict to the first element of its `choices`
list (when that list is a non-empty JSON array). -/
def keepFirstChoice (kvs : List (String × Json)) : List (String × Json) :=
  match lookupKey kvs "choices" with
  | some (.arr (c :: _)) => setKey kvs "choices" (.arr [c])
  | _ => kvs

theorem foldSkipChoices_setKey (kvs : List (String × Json)) (v : Json)
    (m : List (String × Json)) :
    (setKey kvs "choices" v).foldl
        (fun m (p : String × Json) => if p.1 = "choices" then m else setKey m p.1 p.2) m =
    kvs.foldl (fun m (p : String × Json) => if p.1 = "choices" then m else setKey m p.1 p.2) m := by
  induction kvs generalizing m with
  | nil => simp [setKey]
  | cons p t ih =>
    by_cases hp : p.1 = "choices"
    · simp [setKey, hp]
    · simp only [setKey, hp, if_false, List.foldl_cons, ih]

/-- Processing a fragment only ever reads the first element of its
`choices` list: dropping the remaining choices does not change the
aggregation step at all. -/
theorem processData_keepFirst (st : AggState) (kvs : List (String × Json)) :
    processData st kvs = processData st (keepFirstChoice kvs) := by
  unfold keepFirstChoice
  cases hc : lookupKey kvs "choices" with
  | none => rfl
  | some v =>
    cases v with
    | arr xs =>
      cases xs with
      | nil => rfl
      | cons c rest =>
        unfold processData metaUsageStep
        dsimp only
        rw [foldSkipChoices_setKey, lookupKey_setKey_ne kvs "choices" "usage" _ (by decide)]
        rw [show getKeyD (setKey kvs "choices" (.arr [c])) "choices" .null = .arr [c] from by
          simp [getKeyD, lookupKey_setKey_self]]
        rw [show getKeyD kvs "choices" .null = .arr (c :: rest) from by simp [getKeyD, hc]]
        simp [truthy]
    | null => rfl
    | bool b => rfl
    | num q => rfl
    | str s => rfl
    | obj o => rfl

theorem assembleSse_shape_aux (md : List (String × Json)) (md2 : List (String × Json))
    (cvs : List (String × Json)) (hidx : lookupKey cvs "index" = some (.num 0)) :
    ∃ kvs cvs', (match lookupKey md "usage" with
      | some u => Json.obj (setKey (setKey md2 "choices" (.arr [.obj cvs])) "usage" u)
      | none => Json.obj (setKey md2 "choices" (.arr [.obj cvs]))) = .obj kvs ∧
      lookupKey kvs "choices" = some (.arr [.obj cvs']) ∧
      lookupKey cvs' "index" = some (.num 0) := by
  cases hu : lookupKey md "usage" with
  | none => exact ⟨_, cvs, rfl, lookupKey_setKey_self _ _ _, hidx⟩
  | some u =>
    refine ⟨_, cvs, rfl, ?_, hidx⟩
    rw [lookupKey_setKey_ne _ "usage" "choices" u (by decide)]
    exact lookupKey_setKey_self _ _ _

/-- Whatever the final loop state, the assembled response carries exactly
one choice, at index 0. -/
theorem assembleSse_shape (st : AggState) :
    ∃ kvs cvs, assembleSse st = .obj kvs ∧
      lookupKey kvs "choices" = some (.arr [.obj cvs]) ∧
      lookupKey cvs "index" = some (.num 0) := by
  unfold assembleSse
  cases hmt : st.model_type with
  | none => exact assembleSse_shape_aux _ _ _ rfl
  | some mt =>
    cases mt with
    | chat => exact assembleSse_shape_aux _ _ _ rfl
    | completion => exact assembleSse_shape_aux _ _ _ rfl

/-- Claim C10: every successfully reconstructed LogicalResponse contains
exactly one choice, with index 0, and the aggregation step is insensitive to
every choice beyond the first in each fragment (their content is
discarded). -/
theorem C10_single_choice (chunks : List (List Char)) (j : Json)
    (h : reconstruct_sse_response chunks = .ok j) :
    (∃ kvs cvs, j = .obj kvs ∧
      lookupKey kvs "choices" = some (.arr [.obj cvs]) ∧
      lookupKey cvs "index" = some (.num 0)) ∧
    (∀ st kvs, processData st kvs = processData st (keepFirstChoice kvs)) := by
  refine ⟨?_, fun st kvs => processData_keepFirst st kvs⟩
  unfold reconstruct_sse_response at h
  cases hst : chunks.foldlM processChunk initAgg with
  | error e => rw [hst] at h; cases h
  | ok st =>
    rw [hst] at h
    injection h with h
    obtain ⟨kvs, cvs, he, h1, h2⟩ := assembleSse_shape st
    exact ⟨kvs, cvs, h ▸ he, h1, h2⟩

/-- Witness for C10: a fragment with two choices; the reconstruction keeps
only the first one's text and emits a single index-0 choice. -/
theorem C10_single_choice_witness :
    (reconstruct_sse_response
        ["\x7b\"choices\":[\x7b\"text\":\"hi\"\x7d,\x7b\"text\":\"DROPPED\"\x7d]\x7d".data] =
      .ok (Json.obj [("object", .str "text_completion.aggregated"),
        ("choices", .arr [.obj [("index", .num 0), ("text", .str "hi"),
          ("finish_reason", .null)]])])) ∧
    ((∃ kvs cvs,
        (Json.obj [("object", .str "text_completion.aggregated"),
          ("choices", .arr [.obj [("index", .num 0), ("text", .str "hi"),
            ("finish_reason", .null)]])]) = .obj kvs ∧
        lookupKey kvs "choices" = some (.arr [.obj cvs]) ∧
        lookupKey cvs "index" = some (.num 0)) ∧
     (∀ st kvs, processData st kvs = processData st (keepFirstChoice kvs))) :=
  ⟨by decide,
   C10_single_choice
     ["\x7b\"choices\":[\x7b\"text\":\"hi\"\x7d,\x7b\"text\":\"DROPPED\"\x7d]\x7d".data]
     _ (by decide)⟩

/-! ## Claim C5 -/

def fragC5stop : List Char :=
  "\x7b\"choices\":[\x7b\"delta\":\x7b\"content\":\"a\"\x7d,\"finish_reason\":\"stop\"\x7d]\x7d".data

def fragC5length : List Char :=
  "\x7b\"choices\":[\x7b\"delta\":\x7b\x7d,\"finish_reason\":\"length\"\x7d]\x7d".data

/-- Counterexample to C5 as stated: the first non-null finish_reason in the
stream is `"stop"`, a later fragment reports `"length"`, and the
reconstructed response carries `"length"` — the value is overwritten, not
latched. -/
theorem C5_counterexample :
    parseJson fragC5stop = some (Json.obj [("choices", .arr [.obj [("delta",
      .obj [("content", .str "a")]), ("finish_reason", .str "stop")]])]) ∧
    parseJson fragC5length = some (Json.obj [("choices", .arr [.obj [("delta",
      .obj []), ("finish_reason", .str "length")]])]) ∧
    reconstruct_sse_response [fragC5stop, fragC5length] =
      .ok (Json.obj [("object", .str "chat.completion.aggregated"),
        ("choices", .arr [.obj [("index", .num 0),
          ("message", .obj [("role", .null), ("content", .str "a")]),
          ("finish_reason", .str "length")]])]) ∧
    Json.str "length" ≠ Json.str "stop" :=
  ⟨by decide, by decide, by decide, by decide⟩

/-- The finish_reason a fragment dict reports through its first choice
(null unless the guards of the loop reach the choice and it is a dict). -/
def fragFinishReason (kvs : List (String × Json)) : Json :=
  match getKeyD kvs "choices" .null with
  | .arr (c :: _) =>
    if ¬ truthy c then .null
    else
      match c with
      | .obj ck => getKeyD ck "finish_reason" .null
      | _ => .null
  | _ => .null

theorem truthy_null : truthy Json.null = false := rfl

/-- Claim C5 (amended): the stop reason after processing one fragment is
the fragment's truthy first-choice finish_reason when there is one, and the
previous stop reason otherwise — i.e. the *last* truthy report wins and a
later different non-null finish_reason *does* overwrite an earlier one. -/
theorem C5_finish_reason_last_wins (st : AggState) (kvs : List (String × Json)) (st' : AggState)
    (h : processData st kvs = .ok st') :
    st'.finish_reason =
      (if truthy (fragFinishReason kvs) then fragFinishReason kvs else st.finish_reason) := by
  unfold processData at h
  unfold fragFinishReason
  dsimp only at h
  cases hch : getKeyD kvs "choices" Json.null with
  | arr cs =>
    rw [hch] at h
    cases cs with
    | nil =>
      rw [if_pos (by simp [truthy])] at h
      cases h
      simp [truthy, metaUsageStep]
    | cons c rest =>
      rw [if_neg (by simp [truthy])] at h
      dsimp only at h
      by_cases hct : truthy c
      · rw [if_neg (by simpa using hct)] at h
        simp only [hct, Bool.true_eq_false, if_false]
        cases hdt : detectType (metaUsageStep st kvs).model_type c with
        | error e => rw [hdt] at h; cases h
        | ok mt =>
        rw [hdt] at h
        dsimp only at h
        cases hec : extractContent mt (metaUsageStep st kvs).role
            (metaUsageStep st kvs).full_content c with
        | error e => rw [hec] at h; cases h
        | ok rc =>
        rw [hec] at h
        dsimp only at h
        unfold updateFinish at h
        cases c with
        | obj ck =>
          simp only [pyDictGet, Except.ok.injEq] at h
          subst h
          by_cases hfin : truthy (getKeyD ck "finish_reason" Json.null)
          · simp [hfin]
          · simp [hfin, metaUsageStep]
        | null => simp [pyDictGet] at h
        | bool b => simp [pyDictGet] at h
        | num q => simp [pyDictGet] at h
        | str s => simp [pyDictGet] at h
        | arr xs => simp [pyDictGet] at h
      · rw [if_pos (by simpa using hct)] at h
        cases h
        simp only [Bool.not_eq_true] at hct
        simp [hct, truthy_null, metaUsageStep]
  | null =>
    rw [hch] at h
    rw [if_pos (by simp [truthy])] at h
    cases h
    simp [truthy, metaUsageStep]
  | bool b =>
    rw [hch] at h
    by_cases htr : truthy (Json.bool b)
    · rw [if_neg (by simpa using htr)] at h
      dsimp only at h
      cases h
      simp [truthy, metaUsageStep]
    · rw [if_pos (by simpa using htr)] at h
      cases h
      simp [truthy, metaUsageStep]
  | num q =>
    rw [hch] at h
    by_cases htr : truthy (Json.num q)
    · rw [if_neg (by simpa using htr)] at h
      dsimp only at h
      cases h
      simp [truthy, metaUsageStep]
    · rw [if_pos (by simpa using htr)] at h
      cases h
      simp [truthy, metaUsageStep]
  | str s =>
    rw [hch] at h
    by_cases htr : truthy (Json.str s)
    · rw [if_neg (by simpa using htr)] at h
      dsimp only at h
      cases h
      simp [truthy, metaUsageStep]
    · rw [if_pos (by simpa using htr)] at h
      cases h
      simp [truthy, metaUsageStep]
  | obj o =>
    rw [hch] at h
    by_cases htr : truthy (Json.obj o)
    · rw [if_neg (by simpa using htr)] at h
      dsimp only at h
      cases h
      simp [truthy, metaUsageStep]
    · rw [if_pos (by simpa using htr)] at h
      cases h
      simp [truthy, metaUsageStep]

/-- Witness for the amended C5 at a concrete overwrite: the state already
latched `"stop"`, the fragment reports `"length"`, and the result carries
`"length"`. -/
theorem C5_finish_reason_last_wins_witness :
    processData { initAgg with finish_reason := .str "stop", model_type := some MType.chat }
        [("choices", .arr [.obj [("delta", .obj []), ("finish_reason", .str "length")]])] =
      .ok { initAgg with finish_reason := .str "length", model_type := some MType.chat } ∧
    ({ initAgg with finish_reason := .str "length", model_type := some MType.chat } : AggState).finish_reason =
      (if truthy (fragFinishReason
          [("choices", .arr [.obj [("delta", .obj []), ("finish_reason", .str "length")]])])
       then fragFinishReason
          [("choices", .arr [.obj [("delta", .obj []), ("finish_reason", .str "length")]])]
       else ({ initAgg with finish_reason := .str "stop", model_type := some MType.chat } : AggState).finish_reason) :=
  ⟨by decide,
   C5_finish_reason_last_wins
     { initAgg with finish_reason := .str "stop", model_type := some MType.chat }
     [("choices", .arr [.obj [("delta", .obj []), ("finish_reason", .str "length")]])]
     { initAgg with finish_reason := .str "length", model_type := some MType.chat }
     (by decide)⟩

/-! ## Claim C6 -/

/-- Every character of `w` is Python whitespace. -/
def allWs (w : List Char) : Prop := ∀ c ∈ w, pyIsSpace c = true

theorem dropWhile_append_cases (p : Char → Bool) (x y : List Char) :
    List.dropWhile p (x ++ y) =
      (if List.dropWhile p x = [] then List.dropWhile p y else List.dropWhile p x ++ y) := by
  induction x with
  | nil => simp [List.dropWhile]
  | cons c cs ih =>
    by_cases hc : p c
    · simp [List.dropWhile, hc, ih]
    · simp [List.dropWhile, hc]

theorem dropWhile_eq_nil_iff_all (p : Char → Bool) (l : List Char) :
    List.dropWhile p l = [] ↔ ∀ c ∈ l, p c = true := by
  induction l with
  | nil => simp
  | cons c cs ih =>
    by_cases hc : p c
    · simp [List.dropWhile, hc, ih]
    · simp [List.dropWhile, hc]

theorem dropWhile_self_idem (p : Char → Bool) (l : List Char) :
    List.dropWhile p (List.dropWhile p l) = List.dropWhile p l := by
  induction l with
  | nil => rfl
  | cons c cs ih =>
    by_cases hc : p c
    · simp [List.dropWhile, hc, ih]
    · simp [List.dropWhile, hc]

theorem dropLeadingWs_eq_nil_iff (l : List Char) : dropLeadingWs l = [] ↔ allWs l := by
  unfold dropLeadingWs allWs
  exact dropWhile_eq_nil_iff_all pyIsSpace l

theorem dropTrailingWs_eq_nil_iff (l : List Char) : dropTrailingWs l = [] ↔ allWs l := by
  unfold dropTrailingWs allWs
  rw [List.reverse_eq_nil_iff, dropWhile_eq_nil_iff_all]
  constructor
  · intro h c hc
    exact h c (List.mem_reverse.mpr hc)
  · intro h c hc
    exact h c (List.mem_reverse.mp hc)

theorem dropTrailingWs_append_ws (x w : List Char) (hw : allWs w) :
    dropTrailingWs (x ++ w) = dropTrailingWs x := by
  unfold dropTrailingWs
  rw [List.reverse_append, dropWhile_append_cases]
  rw [if_pos ((dropWhile_eq_nil_iff_all _ _).mpr (fun c hc => hw c (List.mem_reverse.mp hc)))]

theorem dropTrailingWs_append_of_ne (x y : List Char) (hy : dropTrailingWs y ≠ []) :
    dropTrailingWs (x ++ y) = x ++ dropTrailingWs y := by
  unfold dropTrailingWs at hy ⊢
  rw [List.reverse_append, dropWhile_append_cases]
  rw [if_neg (by simpa [List.reverse_eq_nil_iff] using hy)]
  rw [List.reverse_append, List.reverse_reverse]

theorem dropLeadingWs_append_of_ne (x y : List Char) (hx : dropLeadingWs x ≠ []) :
    dropLeadingWs (x ++ y) = dropLeadingWs x ++ y := by
  unfold dropLeadingWs at hx ⊢
  rw [dropWhile_append_cases, if_neg hx]

theorem dropTrailingWs_idem (l : List Char) :
    dropTrailingWs (dropTrailingWs l) = dropTrailingWs l := by
  unfold dropTrailingWs
  rw [List.reverse_reverse, dropWhile_self_idem]

theorem exists_dropTrailingWs_decomp (l : List Char) :
    ∃ w, l = dropTrailingWs l ++ w ∧ allWs w := by
  refine ⟨(List.takeWhile pyIsSpace l.reverse).reverse, ?_, ?_⟩
  · conv_lhs => rw [← List.reverse_reverse l, ← List.takeWhile_append_dropWhile (p := pyIsSpace) (l := l.reverse)]
    rw [List.reverse_append]
    rfl
  · intro c hc
    exact List.mem_takeWhile_imp (List.mem_reverse.mp hc)

theorem pstrip_eq_nil_of_allWs (l : List Char) (h : allWs l) : pstrip l = [] := by
  unfold pstrip
  rw [(dropLeadingWs_eq_nil_iff l).mpr h]
  rfl

theorem pstrip_dropTrailingWs (r : List Char) : pstrip (dropTrailingWs r) = pstrip r := by
  by_cases hdt : dropTrailingWs r = []
  · rw [hdt, pstrip_eq_nil_of_allWs r ((dropTrailingWs_eq_nil_iff r).mp hdt)]
    rfl
  · obtain ⟨w, hw, hallw⟩ := exists_dropTrailingWs_decomp r
    by_cases hdl : dropLeadingWs (dropTrailingWs r) = []
    · exfalso
      have hall := (dropLeadingWs_eq_nil_iff _).mp hdl
      have h2 : dropTrailingWs (dropTrailingWs r) = [] := (dropTrailingWs_eq_nil_iff _).mpr hall
      rw [dropTrailingWs_idem] at h2
      exact hdt h2
    · conv_rhs => rw [hw]
      unfold pstrip
      rw [dropLeadingWs_append_of_ne _ _ hdl, dropTrailingWs_append_ws _ _ hallw]

theorem listStarts_exists (p l : List Char) (h : listStarts p l = true) : ∃ r, l = p ++ r := by
  induction p generalizing l with
  | nil => exact ⟨l, rfl⟩
  | cons c cs ih =>
    cases l with
    | nil => simp [listStarts] at h
    | cons d ds =>
      simp only [listStarts, Bool.and_eq_true, decide_eq_true_eq] at h
      obtain ⟨r, hr⟩ := ih ds h.2
      exact ⟨r, by simp [h.1, hr]⟩

theorem listStarts_append_self (p r : List Char) : listStarts p (p ++ r) = true := by
  induction p with
  | nil => rfl
  | cons c cs ih => simp [listStarts, ih]

theorem listStarts_append_of (p x y : List Char) (h : listStarts p x = true) :
    listStarts p (x ++ y) = true := by
  obtain ⟨r, rfl⟩ := listStarts_exists p x h
  rw [List.append_assoc]
  exact listStarts_append_self p (r ++ y)

theorem splitPartial_no_newline (l : List Char) (h : '\n' ∉ l) :
    splitPartial l = ([], l) := by
  induction l with
  | nil => rfl
  | cons c cs ih =>
    have hc : c ≠ '\n' := fun hh => h (hh ▸ List.mem_cons_self c cs)
    have hcs : '\n' ∉ cs := fun hh => h (List.mem_cons_of_mem c hh)
    simp [splitPartial, ih hcs, hc]

theorem splitPartial_append_newline (l : List Char) (h : '\n' ∉ l) :
    splitPartial (l ++ ['\n']) = ([l], []) := by
  induction l with
  | nil => rfl
  | cons c cs ih =>
    have hc : c ≠ '\n' := fun hh => h (hh ▸ List.mem_cons_self c cs)
    have hcs : '\n' ∉ cs := fun hh => h (List.mem_cons_of_mem c hh)
    simp [splitPartial, ih hcs, hc]

/-- The complete-line extractor and the end-of-stream flush test agree on
every line without leading whitespace. -/
theorem extractLine_agrees_eos (b : List Char) (hlead : dropLeadingWs b = b) :
    extractLine b =
      (if listStarts dataMarker b then
        (if pstrip (b.drop 6) ≠ [] ∧ pstrip (b.drop 6) ≠ "[DONE]".data
         then some (pstrip (b.drop 6)) else none)
       else none) := by
  have hps : pstrip b = dropTrailingWs b := by
    unfold pstrip
    rw [hlead]
  by_cases hst : listStarts dataMarker b = true
  · obtain ⟨r, hr⟩ := listStarts_exists _ _ hst
    rw [if_pos hst]
    have hdrop : b.drop 6 = r := by
      rw [hr, show (6 : Nat) = dataMarker.length from by decide, List.drop_left]
    rw [hdrop]
    unfold extractLine
    rw [hps, hr]
    by_cases hdt : dropTrailingWs r = []
    · have hws : allWs r := (dropTrailingWs_eq_nil_iff r).mp hdt
      rw [dropTrailingWs_append_ws dataMarker r hws]
      rw [show dropTrailingWs dataMarker = "data:".data from by decide]
      rw [if_neg (show ¬ listStarts dataMarker "data:".data = true from by decide)]
      rw [pstrip_eq_nil_of_allWs r hws]
      rw [if_neg (by simp)]
    · rw [dropTrailingWs_append_of_ne dataMarker r hdt]
      rw [if_pos (listStarts_append_self dataMarker (dropTrailingWs r))]
      rw [show (dataMarker ++ dropTrailingWs r).drop 6 = dropTrailingWs r from by
        rw [show (6 : Nat) = dataMarker.length from by decide, List.drop_left]]
      rw [pstrip_dropTrailingWs r]
  · rw [if_neg hst]
    unfold extractLine
    rw [hps]
    rw [if_neg (show ¬ listStarts dataMarker (dropTrailingWs b) = true from ?_)]
    intro hcon
    obtain ⟨w, hw, hallw⟩ := exists_dropTrailingWs_decomp b
    exact hst (hw ▸ listStarts_append_of _ _ w hcon)

/-- The end-of-stream flush on a leading-whitespace-free buffer extracts
exactly what the complete-line path would extract. -/
theorem onChunkEos_chunks (b : List Char) (hlead : dropLeadingWs b = b) :
    (onChunkEos ⟨b, [], 0⟩).sse_chunks = List.filterMap extractLine [b] := by
  unfold onChunkEos
  by_cases hb : b = []
  · subst hb
    decide
  · dsimp only
    rw [if_neg hb]
    have hfm : List.filterMap extractLine [b] =
        (match extractLine b with
         | some p => [p]
         | none => []) := by
      cases hcase : extractLine b <;> simp [List.filterMap, hcase]
    rw [hfm, extractLine_agrees_eos b hlead]
    by_cases hst : listStarts dataMarker b = true
    · rw [if_pos hst, if_pos hst]
      by_cases hcd : pstrip (b.drop 6) ≠ [] ∧ pstrip (b.drop 6) ≠ "[DONE]".data
      · rw [if_pos hcd, if_pos hcd]
        simp
      · rw [if_neg hcd, if_neg hcd]
    · rw [if_neg hst, if_neg hst]

/-- Counterexample to C6 as stated: the buffered partial line `" data: X"`
(leading space) is extracted when completed by a newline but dropped by the
end-of-stream flush, because the flush path omits the `strip` before the
`data: ` test. -/
theorem C6_counterexample :
    (runSseText [" data: X\n".data]).sse_chunks = ["X".data] ∧
    (runSseText [" data: X".data]).sse_chunks = [] ∧
    (["X".data] : List (List Char)) ≠ [] :=
  ⟨by decide, by decide, by decide⟩

/-- Claim C6 (amended): when the end-of-stream delivery arrives, the
retained partial line is processed like a complete line *provided it has no
leading whitespace*: for every newline-free buffer `b` with no leading
whitespace, delivering `b ++ "\n"` then end-of-stream extracts the same
fragment sequence as delivering `b` then end-of-stream.  (The flush path
does not strip the line before the `data: ` marker test, so buffers with
leading whitespace are dropped there but extracted on the newline path.) -/
theorem C6_eos_flush (b : List Char) (hnl : '\n' ∉ b) (hlead : dropLeadingWs b = b) :
    (runSseText [b ++ ['\n']]).sse_chunks = (runSseText [b]).sse_chunks := by
  unfold runSseText onChunkText
  simp only [List.foldl_cons, List.foldl_nil, initSse, List.nil_append]
  rw [splitPartial_append_newline b hnl, splitPartial_no_newline b hnl]
  dsimp only
  have h1 : ∀ ch, onChunkEos ⟨[], ch, 0⟩ = ⟨[], ch, 0⟩ := by
    intro ch
    unfold onChunkEos
    rw [if_pos rfl]
  rw [h1]
  rw [show (⟨b, List.filterMap extractLine [], 0⟩ : SseState) = ⟨b, [], 0⟩ from by
    simp [List.filterMap]]
  rw [onChunkEos_chunks b hlead]

/-- Witness for the amended C6 at the buffer `"data: Y"`. -/
theorem C6_eos_flush_witness :
    ('\n' ∉ "data: Y".data) ∧ dropLeadingWs "data: Y".data = "data: Y".data ∧
    (runSseText ["data: Y\n".data]).sse_chunks = (runSseText ["data: Y".data]).sse_chunks ∧
    (runSseText ["data: Y".data]).sse_chunks = ["Y".data] :=
  ⟨by decide, by decide,
   by
     have := C6_eos_flush "data: Y".data (by decide) (by decide)
     simpa using this,
   by decide⟩

/-! ## Claim C1 -/

/-- `split("\n")` with retained partial distributes over concatenation: the
completed lines of `x ++ y` are the completed lines of `x` followed by those
of the partial-of-`x` prepended to `y`. -/
theorem splitPartial_cons (c : Char) (l : List Char) :
    splitPartial (c :: l) =
      if c = '\n' then ([] :: (splitPartial l).1, (splitPartial l).2)
      else
        match (splitPartial l).1 with
        | [] => ([], c :: (splitPartial l).2)
        | p :: ps => ((c :: p) :: ps, (splitPartial l).2) := rfl

theorem splitPartial_append (x y : List Char) :
    splitPartial (x ++ y) =
      ((splitPartial x).1 ++ (splitPartial ((splitPartial x).2 ++ y)).1,
       (splitPartial ((splitPartial x).2 ++ y)).2) := by
  induction x with
  | nil => simp [splitPartial]
  | cons c cs ih =>
    rw [List.cons_append, splitPartial_cons, splitPartial_cons, ih]
    by_cases hc : c = '\n'
    · rw [if_pos hc, if_pos hc]
      dsimp only
      rw [List.cons_append]
    · rw [if_neg hc, if_neg hc]
      dsimp only
      cases hsp : (splitPartial cs).1 with
      | nil =>
        dsimp only
        rw [List.nil_append, List.nil_append, List.cons_append,
          splitPartial_cons, if_neg hc]
      | cons p ps =>
        dsimp only
        rw [List.cons_append, List.cons_append]

/-- Feeding one more text delivery merges with the previous buffer exactly
like one concatenated delivery. -/
theorem onChunkText_append (st : SseState) (a b : List Char) :
    onChunkText (onChunkText st a) b = onChunkText st (a ++ b) := by
  unfold onChunkText
  dsimp only
  rw [show st.sse_buffer ++ (a ++ b) = (st.sse_buffer ++ a) ++ b from by
    rw [List.append_assoc]]
  rw [splitPartial_append (st.sse_buffer ++ a) b]
  simp [List.filterMap_append, List.append_assoc]

theorem foldl_onChunkText_join (ts : List (List Char)) (st : SseState) (t : List Char) :
    ts.foldl onChunkText (onChunkText st t) = onChunkText st (t ++ ts.join) := by
  induction ts generalizing st t with
  | nil => simp
  | cons u us ih =>
    simp only [List.foldl_cons, List.join_cons]
    rw [onChunkText_append st t u, ih, List.append_assoc]

/-- The whole text run only depends on the concatenation of the
deliveries. -/
theorem runSseText_join (ts : List (List Char)) :
    runSseText ts = runSseText [ts.join] := by
  unfold runSseText
  cases ts with
  | nil => rfl
  | cons t ts =>
    simp only [List.foldl_cons, List.foldl_nil, List.join_cons]
    rw [foldl_onChunkText_join ts initSse t]

/-- Claim C1 (amended): for a fixed decoded character sequence, the way it
is split into chunk deliveries (followed by end-of-stream) never changes
the streaming state, the extracted fragments, or the reconstructed
LogicalResponse.  (At the raw byte level this fails: a chunk boundary inside
a multi-byte UTF-8 character changes the lossily decoded text, see the
counterexample.) -/
theorem C1_boundary_insensitive (ts1 ts2 : List (List Char)) (hj : ts1.join = ts2.join) :
    runSseText ts1 = runSseText ts2 ∧
    reconstruct_sse_response (runSseText ts1).sse_chunks =
      reconstruct_sse_response (runSseText ts2).sse_chunks := by
  have h : runSseText ts1 = runSseText ts2 := by
    rw [runSseText_join ts1, runSseText_join ts2, hj]
  exact ⟨h, by rw [h]⟩

def c1head : List Nat := "data: \x7b\"choices\":[\x7b\"text\":\"".data.map Char.toNat

def c1tail : List Nat := "\"\x7d]\x7d\n".data.map Char.toNat

/-- The SSE body bytes `data: \x7b"choices":[\x7b"text":"é"\x7d]\x7d\n`, where `é`
is the two UTF-8 bytes `0xC3 0xA9`. -/
def c1whole : List Nat := c1head ++ [0xC3, 0xA9] ++ c1tail

def c1pre : List Nat := c1head ++ [0xC3]

def c1suf : List Nat := 0xA9 :: c1tail

/-- Counterexample to C1 as stated: splitting the same byte sequence inside
the two-byte UTF-8 character `é` changes the lossily decoded fragment and
hence the reconstructed content (`é` versus two U+FFFD replacement
characters). -/
theorem C1_counterexample :
    c1pre ++ c1suf = c1whole ∧
    reconstruct_sse_response (runSse [c1whole]).sse_chunks =
      .ok (Json.obj [("object", .str "text_completion.aggregated"),
        ("choices", .arr [.obj [("index", .num 0), ("text", .str "é"),
          ("finish_reason", .null)]])]) ∧
    reconstruct_sse_response (runSse [c1pre, c1suf]).sse_chunks =
      .ok (Json.obj [("object", .str "text_completion.aggregated"),
        ("choices", .arr [.obj [("index", .num 0), ("text", .str "��"),
          ("finish_reason", .null)]])]) ∧
    (Json.str "é") ≠ (Json.str "��") :=
  ⟨by decide, by decide, by decide, by decide⟩

/-- Witness for the amended C1: two different splits of the same character
sequence produce identical states and reconstructions. -/
theorem C1_boundary_insensitive_witness :
    (["data: \x7b\"text".data, "\":\"hi\"\x7d\n".data] : List (List Char)).join =
      (["data: \x7b\"text\":\"hi\"\x7d\n".data] : List (List Char)).join ∧
    runSseText ["data: \x7b\"text".data, "\":\"hi\"\x7d\n".data] =
      runSseText ["data: \x7b\"text\":\"hi\"\x7d\n".data] ∧
    reconstruct_sse_response
        (runSseText ["data: \x7b\"text".data, "\":\"hi\"\x7d\n".data]).sse_chunks =
      reconstruct_sse_response
        (runSseText ["data: \x7b\"text\":\"hi\"\x7d\n".data]).sse_chunks :=
  ⟨by decide,
   (C1_boundary_insensitive _ _ (by decide)).1,
   (C1_boundary_insensitive _ _ (by decide)).2⟩

/-! ## Claim C2 -/

/-- A fragment survives the skip filters of the aggregation loop: it is not
whitespace-only, it parses, and it parses to a dict. -/
def fragKept (s : List Char) : Bool :=
  if pstrip s = [] then false
  else
    match parseJson s with
    | some (.obj _) => true
    | _ => false

/-- A `delta` dict whose truthy `content` (when present) is a string. -/
def deltaBenign (dkvs : List (String × Json)) : Bool :=
  match lookupKey dkvs "content" with
  | none => true
  | some (.str _) => true
  | some v => !truthy v

/-- A choice dict whose truthy `text` (when present) is a string. -/
def textBenign (ckvs : List (String × Json)) : Bool :=
  match lookupKey ckvs "text" with
  | none => true
  | some (.str _) => true
  | some v => !truthy v

/-- A first choice that drives no uncaught exception through shape
detection, content extraction and the finish_reason update: a dict whose
`delta` (when present) is a dict, whose truthy `delta["content"]` is a
string, and whose truthy `text` is a string. -/
def benignChoice : Json → Bool
  | .obj ckvs =>
    (match lookupKey ckvs "delta" with
     | none => true
     | some (.obj dkvs) => deltaBenign dkvs
     | some _ => false) && textBenign ckvs
  | _ => false

/-- The effective first choice of a parsed fragment dict (when there is a
truthy one) is benign. -/
def choicesBenign (kvs : List (String × Json)) : Bool :=
  match getKeyD kvs "choices" .null with
  | .arr (c :: _) => !truthy c || benignChoice c
  | _ => true

/-- A fragment that is skipped, or whose effective first choice is benign. -/
def fragBenign (s : List Char) : Bool :=
  match parseJson s with
  | some (.obj kvs) => choicesBenign kvs
  | _ => true

theorem exceptBind_ok {α β : Type} (a : α) (f : α → Except PyErr β) :
    (Except.ok a >>= f : Except PyErr β) = f a := rfl

theorem exceptBind_error {α β : Type} (e : PyErr) (f : α → Except PyErr β) :
    ((Except.error e : Except PyErr α) >>= f) = .error e := rfl

/-- Fragments dropped by the skip filters leave the loop state unchanged. -/
theorem processChunk_skipped (st : AggState) (s : List Char) (h : fragKept s = false) :
    processChunk st s = .ok st := by
  unfold processChunk
  unfold fragKept at h
  by_cases hw : pstrip s = []
  · rw [if_pos hw]
  · rw [if_neg hw]
    rw [if_neg hw] at h
    cases hp : parseJson s with
    | none => rfl
    | some j =>
      cases j with
      | obj kvs => simp [hp] at h
      | null => rfl
      | bool b => rfl
      | num q => rfl
      | str t => rfl
      | arr xs => rfl

/-- The aggregation fold only sees the kept fragments. -/
theorem foldlM_processChunk_filter (chunks : List (List Char)) (st : AggState) :
    chunks.foldlM processChunk st = (chunks.filter fragKept).foldlM processChunk st := by
  induction chunks generalizing st with
  | nil => rfl
  | cons s cs ih =>
    cases hk : fragKept s with
    | false =>
      rw [List.filter_cons_of_neg (by simp [hk])]
      rw [List.foldlM_cons, processChunk_skipped st s hk, exceptBind_ok]
      exact ih st
    | true =>
      rw [List.filter_cons_of_pos (by simp [hk])]
      rw [List.foldlM_cons, List.foldlM_cons]
      cases hpc : processChunk st s with
      | error e => rw [exceptBind_error, exceptBind_error]
      | ok st2 => rw [exceptBind_ok, exceptBind_ok]; exact ih st2

theorem detectType_obj_ok (mt : Option MType) (ckvs : List (String × Json)) :
    ∃ mt2, detectType mt (.obj ckvs) = .ok mt2 := by
  cases mt with
  | some m => exact ⟨some m, rfl⟩
  | none =>
    unfold detectType
    rw [show pyIn "delta" (Json.obj ckvs) = .ok (hasKey ckvs "delta") from rfl]
    dsimp only
    cases hd : hasKey ckvs "delta" with
    | true => exact ⟨some MType.chat, by rw [if_pos rfl]⟩
    | false =>
      rw [if_neg (by decide)]
      rw [show pyIn "text" (Json.obj ckvs) = .ok (hasKey ckvs "text") from rfl]
      exact ⟨_, rfl⟩

/-- On a benign choice, content extraction cannot raise. -/
theorem extractContent_benign (mt : Option MType) (role : Json) (content : String)
    (c : Json) (hb : benignChoice c = true) :
    ∃ p, extractContent mt role content c = .ok p := by
  cases c with
  | null => simp [benignChoice] at hb
  | bool b => simp [benignChoice] at hb
  | num q => simp [benignChoice] at hb
  | str t => simp [benignChoice] at hb
  | arr l => simp [benignChoice] at hb
  | obj ckvs =>
    simp only [benignChoice, Bool.and_eq_true] at hb
    obtain ⟨hb1, hb2⟩ := hb
    cases mt with
    | none => exact ⟨(role, content), rfl⟩
    | some m =>
      cases m with
      | completion =>
        unfold extractContent
        rw [show pyIn "text" (Json.obj ckvs) = .ok (hasKey ckvs "text") from rfl]
        dsimp only
        cases ht : hasKey ckvs "text" with
        | false => rw [if_neg (by decide)]; exact ⟨_, rfl⟩
        | true =>
          obtain ⟨tv, htv⟩ := Option.isSome_iff_exists.mp
            (show (lookupKey ckvs "text").isSome = true from ht)
          rw [if_pos rfl]
          rw [show pySubscript (Json.obj ckvs) "text" = .ok tv from by
            simp [pySubscript, htv]]
          dsimp only
          unfold textBenign at hb2
          rw [htv] at hb2
          cases htr : truthy tv with
          | false => rw [if_neg (by decide)]; exact ⟨_, rfl⟩
          | true =>
            rw [if_pos rfl]
            cases tv with
            | str t => exact ⟨(role, content ++ t), rfl⟩
            | null => simp [truthy] at htr
            | bool b => simp [htr] at hb2
            | num q => simp [htr] at hb2
            | arr l => simp [htr] at hb2
            | obj o => simp [htr] at hb2
      | chat =>
        have hdelta : ∃ dkvs, getKeyD ckvs "delta" (.obj []) = .obj dkvs ∧
            deltaBenign dkvs = true := by
          cases hd : lookupKey ckvs "delta" with
          | none => exact ⟨[], by simp [getKeyD, hd], rfl⟩
          | some dv =>
            rw [hd] at hb1
            cases dv with
            | obj dkvs => exact ⟨dkvs, by simp [getKeyD, hd], by simpa using hb1⟩
            | null => simp at hb1
            | bool b => simp at hb1
            | num q => simp at hb1
            | str t => simp at hb1
            | arr l => simp at hb1
        obtain ⟨dkvs, hdel, hbd⟩ := hdelta
        unfold extractContent
        rw [show pyDictGet (Json.obj ckvs) "delta" (Json.obj []) =
              .ok (Json.obj dkvs) from by simp [pyDictGet, hdel]]
        dsimp only
        rw [show pyIn "role" (Json.obj dkvs) = .ok (hasKey dkvs "role") from rfl]
        dsimp only
        unfold deltaBenign at hbd
        cases hr : hasKey dkvs "role" with
        | false =>
          rw [if_neg (by decide)]
          dsimp only
          rw [show pyIn "content" (Json.obj dkvs) = .ok (hasKey dkvs "content") from rfl]
          dsimp only
          cases hc2 : hasKey dkvs "content" with
          | false => rw [if_neg (by decide)]; exact ⟨_, rfl⟩
          | true =>
            obtain ⟨cv, hcv⟩ := Option.isSome_iff_exists.mp
              (show (lookupKey dkvs "content").isSome = true from hc2)
            rw [if_pos rfl]
            rw [show pySubscript (Json.obj dkvs) "content" = .ok cv from by
              simp [pySubscript, hcv]]
            dsimp only
            rw [hcv] at hbd
            cases htr : truthy cv with
            | false => rw [if_neg (by decide)]; exact ⟨_, rfl⟩
            | true =>
              rw [if_pos rfl]
              cases cv with
              | str t => exact ⟨(role, content ++ t), rfl⟩
              | null => simp [truthy] at htr
              | bool b => simp [htr] at hbd
              | num q => simp [htr] at hbd
              | arr l => simp [htr] at hbd
              | obj o => simp [htr] at hbd
        | true =>
          obtain ⟨rv, hrv⟩ := Option.isSome_iff_exists.mp
            (show (lookupKey dkvs "role").isSome = true from hr)
          rw [if_pos rfl]
          rw [show pySubscript (Json.obj dkvs) "role" = .ok rv from by
            simp [pySubscript, hrv]]
          dsimp only
          rw [show pyIn "content" (Json.obj dkvs) = .ok (hasKey dkvs "content") from rfl]
          dsimp only
          cases hc2 : hasKey dkvs "content" with
          | false => rw [if_neg (by decide)]; exact ⟨_, rfl⟩
          | true =>
            obtain ⟨cv, hcv⟩ := Option.isSome_iff_exists.mp
              (show (lookupKey dkvs "content").isSome = true from hc2)
            rw [if_pos rfl]
            rw [show pySubscript (Json.obj dkvs) "content" = .ok cv from by
              simp [pySubscript, hcv]]
            dsimp only
            rw [hcv] at hbd
            cases htr : truthy cv with
            | false => rw [if_neg (by decide)]; exact ⟨_, rfl⟩
            | true =>
              rw [if_pos rfl]
              cases cv with
              | str t => exact ⟨_, rfl⟩
              | null => simp [truthy] at htr
              | bool b => simp [htr] at hbd
              | num q => simp [htr] at hbd
              | arr l => simp [htr] at hbd
              | obj o => simp [htr] at hbd

/-- On a fragment dict whose effective first choice is benign, the loop body
cannot raise. -/
theorem processData_benign (st : AggState) (kvs : List (String × Json))
    (hb : choicesBenign kvs = true) :
    ∃ st2, processData st kvs = .ok st2 := by
  unfold processData
  dsimp only
  unfold choicesBenign at hb
  cases hc : getKeyD kvs "choices" .null with
  | null => exact ⟨_, by rw [if_pos (by decide)]⟩
  | bool b =>
    by_cases hbb : truthy (.bool b)
    · exact ⟨_, by rw [if_neg (not_not_intro hbb)]⟩
    · exact ⟨_, by rw [if_pos hbb]⟩
  | num q =>
    by_cases hbb : truthy (.num q)
    · exact ⟨_, by rw [if_neg (not_not_intro hbb)]⟩
    · exact ⟨_, by rw [if_pos hbb]⟩
  | str t =>
    by_cases hbb : truthy (.str t)
    · exact ⟨_, by rw [if_neg (not_not_intro hbb)]⟩
    · exact ⟨_, by rw [if_pos hbb]⟩
  | obj o =>
    by_cases hbb : truthy (.obj o)
    · exact ⟨_, by rw [if_neg (not_not_intro hbb)]⟩
    · exact ⟨_, by rw [if_pos hbb]⟩
  | arr xs =>
    rw [hc] at hb
    cases xs with
    | nil => exact ⟨_, by rw [if_pos (by decide)]⟩
    | cons c rest =>
      rw [if_neg (not_not_intro (by simp [truthy]))]
      dsimp only at hb ⊢
      by_cases htc : truthy c
      · rw [if_neg (not_not_intro htc)]
        rw [htc] at hb
        simp only [Bool.not_true, Bool.false_or] at hb
        obtain ⟨ckvs, rfl⟩ : ∃ ckvs, c = Json.obj ckvs := by
          cases c with
          | obj ckvs => exact ⟨ckvs, rfl⟩
          | null => simp [benignChoice] at hb
          | bool b => simp [benignChoice] at hb
          | num q => simp [benignChoice] at hb
          | str t => simp [benignChoice] at hb
          | arr l => simp [benignChoice] at hb
        obtain ⟨mt2, hdt⟩ := detectType_obj_ok (metaUsageStep st kvs).model_type ckvs
        rw [hdt]
        dsimp only
        obtain ⟨p, hec⟩ := extractContent_benign mt2 (metaUsageStep st kvs).role
          (metaUsageStep st kvs).full_content (.obj ckvs) hb
        rw [hec]
        exact ⟨_, rfl⟩
      · rw [if_pos htc]
        exact ⟨_, rfl⟩

/-- On a benign fragment, one loop iteration cannot raise. -/
theorem processChunk_benign (st : AggState) (s : List Char)
    (hb : fragBenign s = true) :
    ∃ st2, processChunk st s = .ok st2 := by
  unfold processChunk
  unfold fragBenign at hb
  by_cases hw : pstrip s = []
  · exact ⟨st, by rw [if_pos hw]⟩
  · rw [if_neg hw]
    cases hp : parseJson s with
    | none => exact ⟨st, rfl⟩
    | some j =>
      cases j with
      | obj kvs =>
        rw [hp] at hb
        exact processData_benign st kvs (by simpa using hb)
      | null => exact ⟨st, rfl⟩
      | bool b => exact ⟨st, rfl⟩
      | num q => exact ⟨st, rfl⟩
      | str t => exact ⟨st, rfl⟩
      | arr xs => exact ⟨st, rfl⟩

theorem foldlM_processChunk_benign (chunks : List (List Char)) (st : AggState)
    (hb : ∀ s ∈ chunks, fragBenign s = true) :
    ∃ st2, chunks.foldlM processChunk st = .ok st2 := by
  induction chunks generalizing st with
  | nil => exact ⟨st, rfl⟩
  | cons s cs ih =>
    obtain ⟨st2, h2⟩ := processChunk_benign st s (hb s (by simp))
    rw [List.foldlM_cons, h2, exceptBind_ok]
    exact ih st2 (fun t ht => hb t (by simp [ht]))

/-- Claim C2 (amended): fragments that are whitespace-only, fail JSON
parsing, or parse to a non-dict are skipped without affecting the rest of
the aggregation — reconstructing from the fragment list equals
reconstructing from its kept sublist.  The unconditional exception-safety
part of the claim is false (see the counterexample): aggregation is
exception-free whenever every fragment's effective first choice is benign
(a dict whose `delta`, when present, is a dict, and whose truthy textual
payloads are strings). -/
theorem C2_skip_and_no_raise (chunks : List (List Char))
    (hb : ∀ s ∈ chunks, fragBenign s = true) :
    reconstruct_sse_response chunks =
      reconstruct_sse_response (chunks.filter fragKept) ∧
    ∃ j, reconstruct_sse_response chunks = .ok j := by
  constructor
  · unfold reconstruct_sse_response
    rw [foldlM_processChunk_filter chunks initAgg]
  · obtain ⟨st2, h2⟩ := foldlM_processChunk_benign chunks initAgg hb
    exact ⟨assembleSse st2, by unfold reconstruct_sse_response; rw [h2]⟩

/-- Counterexample to C2 as stated: the aggregator is not exception-safe for
arbitrary choice shapes — a fragment whose first choice is the number `1`
makes the Python membership test `"delta" in choice` raise an uncaught
TypeError, so no record is produced for the exchange. -/
theorem C2_counterexample :
    reconstruct_sse_response ["\x7b\"choices\":[1]\x7d".data] =
      .error .typeError := by
  decide

def c2chunks : List (List Char) :=
  ["\x7b\"choices\":[\x7b\"delta\":\x7b\"content\":\"Hello\"\x7d\x7d]\x7d".data,
   "not json".data,
   "\x7b\"choices\":[\x7b\"delta\":\x7b\"content\":\" world\"\x7d,\"finish_reason\":\"stop\"\x7d]\x7d".data]

/-- Witness for the amended C2: a malformed fragment between two valid chat
fragments is skipped, the aggregation equals that of the kept fragments, and
no exception is raised. -/
theorem C2_skip_and_no_raise_witness :
    reconstruct_sse_response c2chunks =
      reconstruct_sse_response (c2chunks.filter fragKept) ∧
    ∃ j, reconstruct_sse_response c2chunks = .ok j :=
  C2_skip_and_no_raise c2chunks (by decide)

/-! ## Claim C4 -/

/-- The `content`-field truncation shared by the `prediction` handling of
`_summarize_req_json` and the `message` handling of `_summarize_resp_json`. -/
def contentStep (pk : List (String × Json)) : List (String × Json) :=
  match lookupKey pk "content" with
  | some (.str c) => setKey pk "content" (.str (truncStr c))
  | _ => pk

/-- Truncating the `content` of a dict stored under key `k0`. -/
def objContentStep (k0 : String) (kvs : List (String × Json)) : List (String × Json) :=
  match lookupKey kvs k0 with
  | some (.obj pk) => setKey kvs k0 (.obj (contentStep pk))
  | _ => kvs

/-- The `extra.context` list truncation. -/
def ctxStep (ek : List (String × Json)) : List (String × Json) :=
  match lookupKey ek "context" with
  | some (.arr xs) => setKey ek "context" (.arr (xs.map truncCtxItem))
  | _ => ek

def extraStep (kvs : List (String × Json)) : List (String × Json) :=
  match lookupKey kvs "extra" with
  | some (.obj ek) => setKey kvs "extra" (.obj (ctxStep ek))
  | _ => kvs

theorem stepPrediction_eq (kvs : List (String × Json)) :
    stepPrediction kvs = objContentStep "prediction" kvs := rfl

theorem stepExtra_eq (kvs : List (String × Json)) :
    stepExtra kvs = extraStep kvs := rfl

theorem truncMsg_obj (mk : List (String × Json)) :
    truncMsg (.obj mk) = .obj (contentStep mk) := by
  unfold truncMsg contentStep
  dsimp only
  cases hc : lookupKey mk "content" with
  | none => rfl
  | some w => cases w <;> rfl

theorem stepStrKey_wrap (ck1 : List (String × Json)) :
    (match lookupKey ck1 "text" with
     | some (.str t) => Json.obj (setKey ck1 "text" (.str (truncStr t)))
     | _ => Json.obj ck1) = .obj (stepStrKey "text" ck1) := by
  unfold stepStrKey
  cases ht : lookupKey ck1 "text" with
  | none => rfl
  | some w => cases w <;> rfl

theorem truncChoice_obj (ck : List (String × Json)) :
    truncChoice (.obj ck) = .obj (stepStrKey "text" (objContentStep "message" ck)) := by
  unfold truncChoice
  dsimp only
  exact stepStrKey_wrap (objContentStep "message" ck)

/-- `d[k] = v` is a no-op when `d[k]` already holds `v`. -/
theorem setKey_lookup_self (kvs : List (String × Json)) (k : String) (v : Json)
    (h : lookupKey kvs k = some v) : setKey kvs k v = kvs := by
  induction kvs with
  | nil => exact absurd h (by simp [lookupKey])
  | cons p t ih =>
    obtain ⟨k', v'⟩ := p
    unfold lookupKey at h
    unfold setKey
    by_cases hk : k' = k
    · rw [if_pos hk] at h
      rw [if_pos hk]
      injection h with h
      rw [hk, h]
    · rw [if_neg hk] at h
      rw [if_neg hk, ih h]

theorem setKey_ne_nil (kvs : List (String × Json)) (k : String) (v : Json) :
    setKey kvs k v ≠ [] := by
  cases kvs with
  | nil => simp [setKey]
  | cons p t =>
    obtain ⟨k', v'⟩ := p
    unfold setKey
    by_cases h : k' = k
    · rw [if_pos h]; simp
    · rw [if_neg h]; simp

theorem lookupKey_stepMessages (kvs : List (String × Json)) (k : String)
    (h : k ≠ "messages") : lookupKey (stepMessages kvs) k = lookupKey kvs k := by
  unfold stepMessages
  cases hl : lookupKey kvs "messages" with
  | none => rfl
  | some v =>
    cases v with
    | arr ms => exact lookupKey_setKey_ne kvs "messages" k _ h
    | null => rfl
    | bool b => rfl
    | num q => rfl
    | str s => rfl
    | obj o => rfl

theorem lookupKey_stepStrKey (k0 : String) (kvs : List (String × Json)) (k : String)
    (h : k ≠ k0) : lookupKey (stepStrKey k0 kvs) k = lookupKey kvs k := by
  unfold stepStrKey
  cases hl : lookupKey kvs k0 with
  | none => rfl
  | some v =>
    cases v with
    | str s => exact lookupKey_setKey_ne kvs k0 k _ h
    | null => rfl
    | bool b => rfl
    | num q => rfl
    | arr l => rfl
    | obj o => rfl

theorem lookupKey_objContentStep (k0 : String) (kvs : List (String × Json)) (k : String)
    (h : k ≠ k0) : lookupKey (objContentStep k0 kvs) k = lookupKey kvs k := by
  unfold objContentStep
  cases hl : lookupKey kvs k0 with
  | none => rfl
  | some v =>
    cases v with
    | obj pk => exact lookupKey_setKey_ne kvs k0 k _ h
    | null => rfl
    | bool b => rfl
    | num q => rfl
    | str s => rfl
    | arr l => rfl

theorem lookupKey_extraStep (kvs : List (String × Json)) (k : String)
    (h : k ≠ "extra") : lookupKey (extraStep kvs) k = lookupKey kvs k := by
  unfold extraStep
  cases hl : lookupKey kvs "extra" with
  | none => rfl
  | some v =>
    cases v with
    | obj ek => exact lookupKey_setKey_ne kvs "extra" k _ h
    | null => rfl
    | bool b => rfl
    | num q => rfl
    | str s => rfl
    | arr l => rfl

theorem stepMessages_ne_nil (kvs : List (String × Json)) (h : kvs ≠ []) :
    stepMessages kvs ≠ [] := by
  unfold stepMessages
  cases hl : lookupKey kvs "messages" with
  | none => exact h
  | some v =>
    cases v with
    | arr ms => exact setKey_ne_nil kvs "messages" _
    | null => exact h
    | bool b => exact h
    | num q => exact h
    | str s => exact h
    | obj o => exact h

theorem stepStrKey_ne_nil (k0 : String) (kvs : List (String × Json)) (h : kvs ≠ []) :
    stepStrKey k0 kvs ≠ [] := by
  unfold stepStrKey
  cases hl : lookupKey kvs k0 with
  | none => exact h
  | some v =>
    cases v with
    | str s => exact setKey_ne_nil kvs k0 _
    | null => exact h
    | bool b => exact h
    | num q => exact h
    | arr l => exact h
    | obj o => exact h

theorem objContentStep_ne_nil (k0 : String) (kvs : List (String × Json)) (h : kvs ≠ []) :
    objContentStep k0 kvs ≠ [] := by
  unfold objContentStep
  cases hl : lookupKey kvs k0 with
  | none => exact h
  | some v =>
    cases v with
    | obj pk => exact setKey_ne_nil kvs k0 _
    | null => exact h
    | bool b => exact h
    | num q => exact h
    | str s => exact h
    | arr l => exact h

theorem extraStep_ne_nil (kvs : List (String × Json)) (h : kvs ≠ []) :
    extraStep kvs ≠ [] := by
  unfold extraStep
  cases hl : lookupKey kvs "extra" with
  | none => exact h
  | some v =>
    cases v with
    | obj ek => exact setKey_ne_nil kvs "extra" _
    | null => exact h
    | bool b => exact h
    | num q => exact h
    | str s => exact h
    | arr l => exact h

theorem string_length_data (x : String) : x.length = x.data.length := by
  cases x with
  | mk d => rfl

/-- Truncation is a fixpoint on strings of length at least 100 (the marker
is chopped off again before being re-appended). -/
theorem truncStr_fix (s : String) (h : 100 ≤ s.length) :
    truncStr (truncStr s) = truncStr s := by
  have h' : 100 ≤ s.data.length := h
  unfold truncStr
  apply String.ext
  simp only [String.data_append, String.data_take]
  rw [List.take_append_of_le_length (by simp [List.length_take]; omega)]
  rw [List.take_take]
  simp

theorem truncStr_length (s : String) (h : 100 ≤ s.length) :
    (truncStr s).length = 103 := by
  have h' : 100 ≤ s.data.length := by rw [← string_length_data]; exact h
  rw [string_length_data]
  unfold truncStr
  rw [String.data_append, String.data_take, List.length_append, List.length_take]
  have h3 : ("...".data).length = 3 := rfl
  omega

theorem contentStep_id (pk : List (String × Json))
    (h : ∀ c, lookupKey pk "content" = some (.str c) → truncStr c = c) :
    contentStep pk = pk := by
  unfold contentStep
  cases hl : lookupKey pk "content" with
  | none => rfl
  | some w =>
    cases w with
    | str c => dsimp only; rw [h c hl]; exact setKey_lookup_self pk "content" (.str c) hl
    | null => rfl
    | bool b => rfl
    | num q => rfl
    | arr l => rfl
    | obj o => rfl

theorem contentStep_post (pk : List (String × Json))
    (hm : ∀ c, lookupKey pk "content" = some (.str c) → 100 ≤ c.length) :
    ∀ c', lookupKey (contentStep pk) "content" = some (.str c') → truncStr c' = c' := by
  intro c' h'
  unfold contentStep at h'
  cases hl : lookupKey pk "content" with
  | none => simp [hl] at h'
  | some w =>
    cases w with
    | str c =>
      simp only [hl] at h'
      rw [lookupKey_setKey_self] at h'
      simp only [Option.some.injEq, Json.str.injEq] at h'
      subst h'
      exact truncStr_fix c (hm c hl)
    | null => simp [hl] at h'
    | bool b => simp [hl] at h'
    | num q => simp [hl] at h'
    | arr l => simp [hl] at h'
    | obj o => simp [hl] at h'

/-- Per-message 100-character condition for idempotence. -/
def msgFixed (m : Json) : Bool :=
  match m with
  | .obj mk =>
    match lookupKey mk "content" with
    | some (.str c) => 100 ≤ c.length
    | _ => true
  | _ => true

theorem truncMsg_fix (m : Json) (h : msgFixed m = true) :
    truncMsg (truncMsg m) = truncMsg m := by
  cases m with
  | null => rfl
  | bool b => rfl
  | num q => rfl
  | str s => rfl
  | arr l => rfl
  | obj mk =>
    unfold msgFixed at h
    dsimp only at h
    have h' : ∀ c, lookupKey mk "content" = some (.str c) → 100 ≤ c.length := by
      intro c hcc; rw [hcc] at h; simpa using h
    rw [truncMsg_obj mk, truncMsg_obj (contentStep mk)]
    congr 1
    exact contentStep_id (contentStep mk) (contentStep_post mk h')

theorem truncCtxItem_fix (it : Json) :
    truncCtxItem (truncCtxItem it) = truncCtxItem it := by
  cases it with
  | str s =>
    by_cases h : s.length > 100
    · have h1 : truncCtxItem (.str s) = .str (truncStr s) := by
        unfold truncCtxItem; dsimp only; rw [if_pos h]
      have h2 : (truncStr s).length > 100 := by
        rw [truncStr_length s (by omega)]; omega
      have h3 : truncCtxItem (.str (truncStr s)) = .str (truncStr (truncStr s)) := by
        unfold truncCtxItem; dsimp only; rw [if_pos h2]
      rw [h1, h3, truncStr_fix s (by omega)]
    · have h1 : truncCtxItem (.str s) = .str s := by
        unfold truncCtxItem; dsimp only; rw [if_neg h]
      rw [h1, h1]
  | null => rfl
  | bool b => rfl
  | num q => rfl
  | arr l => rfl
  | obj o => rfl

theorem stepMessages_id (kvs2 : List (String × Json))
    (h : ∀ ms, lookupKey kvs2 "messages" = some (.arr ms) → ms.map truncMsg = ms) :
    stepMessages kvs2 = kvs2 := by
  unfold stepMessages
  cases hl : lookupKey kvs2 "messages" with
  | none => rfl
  | some v =>
    cases v with
    | arr ms => dsimp only; rw [h ms hl]; exact setKey_lookup_self kvs2 "messages" (.arr ms) hl
    | null => rfl
    | bool b => rfl
    | num q => rfl
    | str s => rfl
    | obj o => rfl

theorem stepMessages_post (kvs : List (String × Json))
    (hm : ∀ ms, lookupKey kvs "messages" = some (.arr ms) → ms.all msgFixed = true) :
    ∀ ms', lookupKey (stepMessages kvs) "messages" = some (.arr ms') →
      ms'.map truncMsg = ms' := by
  intro ms' h'
  unfold stepMessages at h'
  cases hl : lookupKey kvs "messages" with
  | none => simp [hl] at h'
  | some v =>
    cases v with
    | arr ms =>
      simp only [hl] at h'
      rw [lookupKey_setKey_self] at h'
      simp only [Option.some.injEq, Json.arr.injEq] at h'
      subst h'
      rw [List.map_map]
      refine List.map_congr_left ?_
      intro m hmem
      show truncMsg (truncMsg m) = truncMsg m
      exact truncMsg_fix m (List.all_eq_true.mp (hm ms hl) m hmem)
    | null => simp [hl] at h'
    | bool b => simp [hl] at h'
    | num q => simp [hl] at h'
    | str s => simp [hl] at h'
    | obj o => simp [hl] at h'

theorem stepStrKey_id (k0 : String) (kvs2 : List (String × Json))
    (h : ∀ s, lookupKey kvs2 k0 = some (.str s) → truncStr s = s) :
    stepStrKey k0 kvs2 = kvs2 := by
  unfold stepStrKey
  cases hl : lookupKey kvs2 k0 with
  | none => rfl
  | some v =>
    cases v with
    | str s => dsimp only; rw [h s hl]; exact setKey_lookup_self kvs2 k0 (.str s) hl
    | null => rfl
    | bool b => rfl
    | num q => rfl
    | arr l => rfl
    | obj o => rfl

theorem stepStrKey_post (k0 : String) (kvs : List (String × Json))
    (hm : ∀ s, lookupKey kvs k0 = some (.str s) → 100 ≤ s.length) :
    ∀ s', lookupKey (stepStrKey k0 kvs) k0 = some (.str s') → truncStr s' = s' := by
  intro s' h'
  unfold stepStrKey at h'
  cases hl : lookupKey kvs k0 with
  | none => simp [hl] at h'
  | some v =>
    cases v with
    | str s =>
      simp only [hl] at h'
      rw [lookupKey_setKey_self] at h'
      simp only [Option.some.injEq, Json.str.injEq] at h'
      subst h'
      exact truncStr_fix s (hm s hl)
    | null => simp [hl] at h'
    | bool b => simp [hl] at h'
    | num q => simp [hl] at h'
    | arr l => simp [hl] at h'
    | obj o => simp [hl] at h'

theorem objContentStep_id (k0 : String) (kvs2 : List (String × Json))
    (h : ∀ pk, lookupKey kvs2 k0 = some (.obj pk) →
      ∀ c, lookupKey pk "content" = some (.str c) → truncStr c = c) :
    objContentStep k0 kvs2 = kvs2 := by
  unfold objContentStep
  cases hl : lookupKey kvs2 k0 with
  | none => rfl
  | some v =>
    cases v with
    | obj pk =>
      dsimp only
      rw [contentStep_id pk (h pk hl)]
      exact setKey_lookup_self kvs2 k0 (.obj pk) hl
    | null => rfl
    | bool b => rfl
    | num q => rfl
    | str s => rfl
    | arr l => rfl

theorem objContentStep_post (k0 : String) (kvs : List (String × Json))
    (hm : ∀ pk c, lookupKey kvs k0 = some (.obj pk) →
      lookupKey pk "content" = some (.str c) → 100 ≤ c.length) :
    ∀ pk', lookupKey (objContentStep k0 kvs) k0 = some (.obj pk') →
      ∀ c', lookupKey pk' "content" = some (.str c') → truncStr c' = c' := by
  intro pk' h'
  unfold objContentStep at h'
  cases hl : lookupKey kvs k0 with
  | none => simp [hl] at h'
  | some v =>
    cases v with
    | obj pk =>
      simp only [hl] at h'
      rw [lookupKey_setKey_self] at h'
      simp only [Option.some.injEq, Json.obj.injEq] at h'
      subst h'
      exact contentStep_post pk (fun c hcc => hm pk c hl hcc)
    | null => simp [hl] at h'
    | bool b => simp [hl] at h'
    | num q => simp [hl] at h'
    | str s => simp [hl] at h'
    | arr l => simp [hl] at h'

theorem ctxStep_id (ek : List (String × Json))
    (h : ∀ xs, lookupKey ek "context" = some (.arr xs) → xs.map truncCtxItem = xs) :
    ctxStep ek = ek := by
  unfold ctxStep
  cases hl : lookupKey ek "context" with
  | none => rfl
  | some v =>
    cases v with
    | arr xs => dsimp only; rw [h xs hl]; exact setKey_lookup_self ek "context" (.arr xs) hl
    | null => rfl
    | bool b => rfl
    | num q => rfl
    | str s => rfl
    | obj o => rfl

theorem ctxStep_post (ek : List (String × Json)) :
    ∀ xs', lookupKey (ctxStep ek) "context" = some (.arr xs') →
      xs'.map truncCtxItem = xs' := by
  intro xs' h'
  unfold ctxStep at h'
  cases hl : lookupKey ek "context" with
  | none => simp [hl] at h'
  | some v =>
    cases v with
    | arr xs =>
      simp only [hl] at h'
      rw [lookupKey_setKey_self] at h'
      simp only [Option.some.injEq, Json.arr.injEq] at h'
      subst h'
      rw [List.map_map]
      refine List.map_congr_left ?_
      intro it hmem
      show truncCtxItem (truncCtxItem it) = truncCtxItem it
      exact truncCtxItem_fix it
    | null => simp [hl] at h'
    | bool b => simp [hl] at h'
    | num q => simp [hl] at h'
    | str s => simp [hl] at h'
    | obj o => simp [hl] at h'

theorem extraStep_id (kvs2 : List (String × Json))
    (h : ∀ ek, lookupKey kvs2 "extra" = some (.obj ek) →
      ∀ xs, lookupKey ek "context" = some (.arr xs) → xs.map truncCtxItem = xs) :
    extraStep kvs2 = kvs2 := by
  unfold extraStep
  cases hl : lookupKey kvs2 "extra" with
  | none => rfl
  | some v =>
    cases v with
    | obj ek =>
      dsimp only
      rw [ctxStep_id ek (h ek hl)]
      exact setKey_lookup_self kvs2 "extra" (.obj ek) hl
    | null => rfl
    | bool b => rfl
    | num q => rfl
    | str s => rfl
    | arr l => rfl

theorem extraStep_post (kvs : List (String × Json)) :
    ∀ ek', lookupKey (extraStep kvs) "extra" = some (.obj ek') →
      ∀ xs', lookupKey ek' "context" = some (.arr xs') → xs'.map truncCtxItem = xs' := by
  intro ek' h'
  unfold extraStep at h'
  cases hl : lookupKey kvs "extra" with
  | none => simp [hl] at h'
  | some v =>
    cases v with
    | obj ek =>
      simp only [hl] at h'
      rw [lookupKey_setKey_self] at h'
      simp only [Option.some.injEq, Json.obj.injEq] at h'
      subst h'
      exact ctxStep_post ek
    | null => simp [hl] at h'
    | bool b => simp [hl] at h'
    | num q => simp [hl] at h'
    | str s => simp [hl] at h'
    | arr l => simp [hl] at h'

/-- Per-choice 100-character condition for idempotence. -/
def choiceFixed (ch : Json) : Bool :=
  match ch with
  | .obj ck =>
    (match lookupKey ck "message" with
     | some (.obj mk) =>
       (match lookupKey mk "content" with
        | some (.str c) => 100 ≤ c.length
        | _ => true)
     | _ => true) &&
    (match lookupKey ck "text" with
     | some (.str t) => 100 ≤ t.length
     | _ => true)
  | _ => true

theorem truncChoice_fix (ch : Json) (h : choiceFixed ch = true) :
    truncChoice (truncChoice ch) = truncChoice ch := by
  cases ch with
  | null => rfl
  | bool b => rfl
  | num q => rfl
  | str s => rfl
  | arr l => rfl
  | obj ck =>
    unfold choiceFixed at h
    rw [Bool.and_eq_true] at h
    obtain ⟨h1, h2⟩ := h
    have h1' : ∀ mk, lookupKey ck "message" = some (.obj mk) →
        ∀ c, lookupKey mk "content" = some (.str c) → 100 ≤ c.length := by
      intro mk hmk c hcc
      rw [hmk] at h1
      dsimp only at h1
      rw [hcc] at h1
      simpa using h1
    have h2' : ∀ t, lookupKey ck "text" = some (.str t) → 100 ≤ t.length := by
      intro t htt; rw [htt] at h2; simpa using h2
    rw [truncChoice_obj ck, truncChoice_obj (stepStrKey "text" (objContentStep "message" ck))]
    congr 1
    have hobj : ∀ pk', lookupKey (stepStrKey "text" (objContentStep "message" ck)) "message" =
        some (.obj pk') → ∀ c', lookupKey pk' "content" = some (.str c') → truncStr c' = c' := by
      intro pk' h'
      rw [lookupKey_stepStrKey _ _ _ (by decide)] at h'
      exact objContentStep_post "message" ck (fun pk c hl hc => h1' pk hl c hc) pk' h'
    have htxt : ∀ s', lookupKey (stepStrKey "text" (objContentStep "message" ck)) "text" =
        some (.str s') → truncStr s' = s' := by
      refine stepStrKey_post "text" _ ?_
      intro s hsx
      rw [lookupKey_objContentStep _ _ _ (by decide)] at hsx
      exact h2' s hsx
    rw [objContentStep_id "message" _ hobj, stepStrKey_id "text" _ htxt]

/-- The shape of an updated dict is unchanged when the new value has the
shape of the old one. -/
theorem jsonShapeKvs_setKey (kvs : List (String × Json)) (k : String) (v w : Json)
    (hl : lookupKey kvs k = some w) (hs : jsonShape v = jsonShape w) :
    jsonShapeKvs (setKey kvs k v) = jsonShapeKvs kvs := by
  induction kvs with
  | nil => exact absurd hl (by simp [lookupKey])
  | cons p t ih =>
    obtain ⟨k', v'⟩ := p
    unfold lookupKey at hl
    unfold setKey
    by_cases hk : k' = k
    · rw [if_pos hk] at hl
      rw [if_pos hk]
      injection hl with hl
      show (k, jsonShape v) :: jsonShapeKvs t = (k', jsonShape v') :: jsonShapeKvs t
      rw [hk, hs, hl]
    · rw [if_neg hk] at hl
      rw [if_neg hk]
      show (k', jsonShape v') :: jsonShapeKvs (setKey t k v) = (k', jsonShape v') :: jsonShapeKvs t
      rw [ih hl]

theorem jsonShapeList_map (f : Json → Json) (l : List Json)
    (hf : ∀ x ∈ l, jsonShape (f x) = jsonShape x) :
    jsonShapeList (l.map f) = jsonShapeList l := by
  induction l with
  | nil => rfl
  | cons a t ih =>
    show jsonShape (f a) :: jsonShapeList (t.map f) = jsonShape a :: jsonShapeList t
    rw [hf a (by simp), ih (fun x hx => hf x (by simp [hx]))]

theorem jsonShapeKvs_contentStep (pk : List (String × Json)) :
    jsonShapeKvs (contentStep pk) = jsonShapeKvs pk := by
  unfold contentStep
  cases hl : lookupKey pk "content" with
  | none => rfl
  | some w =>
    cases w with
    | str c =>
      refine jsonShapeKvs_setKey pk "content" _ _ hl ?_
      show (Json.str "" : Json) = Json.str ""
      rfl
    | null => rfl
    | bool b => rfl
    | num q => rfl
    | arr l => rfl
    | obj o => rfl

theorem jsonShape_truncMsg (m : Json) : jsonShape (truncMsg m) = jsonShape m := by
  cases m with
  | obj mk =>
    rw [truncMsg_obj mk]
    show Json.obj (jsonShapeKvs (contentStep mk)) = Json.obj (jsonShapeKvs mk)
    rw [jsonShapeKvs_contentStep]
  | null => rfl
  | bool b => rfl
  | num q => rfl
  | str s => rfl
  | arr l => rfl

theorem jsonShape_truncCtxItem (it : Json) : jsonShape (truncCtxItem it) = jsonShape it := by
  cases it with
  | str s =>
    unfold truncCtxItem
    dsimp only
    by_cases h : s.length > 100
    · rw [if_pos h]
      show (Json.str "" : Json) = Json.str ""
      rfl
    · rw [if_neg h]
  | null => rfl
  | bool b => rfl
  | num q => rfl
  | arr l => rfl
  | obj o => rfl

theorem jsonShapeKvs_stepMessages (kvs : List (String × Json)) :
    jsonShapeKvs (stepMessages kvs) = jsonShapeKvs kvs := by
  unfold stepMessages
  cases hl : lookupKey kvs "messages" with
  | none => rfl
  | some v =>
    cases v with
    | arr ms =>
      refine jsonShapeKvs_setKey kvs "messages" _ _ hl ?_
      show Json.arr (jsonShapeList (ms.map truncMsg)) = Json.arr (jsonShapeList ms)
      rw [jsonShapeList_map truncMsg ms (fun x _ => jsonShape_truncMsg x)]
    | null => rfl
    | bool b => rfl
    | num q => rfl
    | str s => rfl
    | obj o => rfl

theorem jsonShapeKvs_stepStrKey (k0 : String) (kvs : List (String × Json)) :
    jsonShapeKvs (stepStrKey k0 kvs) = jsonShapeKvs kvs := by
  unfold stepStrKey
  cases hl : lookupKey kvs k0 with
  | none => rfl
  | some v =>
    cases v with
    | str s =>
      refine jsonShapeKvs_setKey kvs k0 _ _ hl ?_
      show (Json.str "" : Json) = Json.str ""
      rfl
    | null => rfl
    | bool b => rfl
    | num q => rfl
    | arr l => rfl
    | obj o => rfl

theorem jsonShapeKvs_objContentStep (k0 : String) (kvs : List (String × Json)) :
    jsonShapeKvs (objContentStep k0 kvs) = jsonShapeKvs kvs := by
  unfold objContentStep
  cases hl : lookupKey kvs k0 with
  | none => rfl
  | some v =>
    cases v with
    | obj pk =>
      refine jsonShapeKvs_setKey kvs k0 _ _ hl ?_
      show Json.obj (jsonShapeKvs (contentStep pk)) = Json.obj (jsonShapeKvs pk)
      rw [jsonShapeKvs_contentStep]
    | null => rfl
    | bool b => rfl
    | num q => rfl
    | str s => rfl
    | arr l => rfl

theorem jsonShapeKvs_ctxStep (ek : List (String × Json)) :
    jsonShapeKvs (ctxStep ek) = jsonShapeKvs ek := by
  unfold ctxStep
  cases hl : lookupKey ek "context" with
  | none => rfl
  | some v =>
    cases v with
    | arr xs =>
      refine jsonShapeKvs_setKey ek "context" _ _ hl ?_
      show Json.arr (jsonShapeList (xs.map truncCtxItem)) = Json.arr (jsonShapeList xs)
      rw [jsonShapeList_map truncCtxItem xs (fun x _ => jsonShape_truncCtxItem x)]
    | null => rfl
    | bool b => rfl
    | num q => rfl
    | str s => rfl
    | obj o => rfl

theorem jsonShapeKvs_extraStep (kvs : List (String × Json)) :
    jsonShapeKvs (extraStep kvs) = jsonShapeKvs kvs := by
  unfold extraStep
  cases hl : lookupKey kvs "extra" with
  | none => rfl
  | some v =>
    cases v with
    | obj ek =>
      refine jsonShapeKvs_setKey kvs "extra" _ _ hl ?_
      show Json.obj (jsonShapeKvs (ctxStep ek)) = Json.obj (jsonShapeKvs ek)
      rw [jsonShapeKvs_ctxStep]
    | null => rfl
    | bool b => rfl
    | num q => rfl
    | str s => rfl
    | arr l => rfl

theorem jsonShape_truncChoice (ch : Json) : jsonShape (truncChoice ch) = jsonShape ch := by
  cases ch with
  | obj ck =>
    rw [truncChoice_obj ck]
    show Json.obj (jsonShapeKvs (stepStrKey "text" (objContentStep "message" ck))) =
      Json.obj (jsonShapeKvs ck)
    rw [jsonShapeKvs_stepStrKey, jsonShapeKvs_objContentStep]
  | null => rfl
  | bool b => rfl
  | num q => rfl
  | str s => rfl
  | arr l => rfl

theorem summarize_req_json_obj (kvs : List (String × Json)) (h : kvs ≠ []) :
    summarize_req_json (.obj kvs) =
      .obj (extraStep (objContentStep "prediction"
        (stepStrKey "suffix" (stepStrKey "prompt" (stepMessages kvs))))) := by
  unfold summarize_req_json
  dsimp only
  rw [if_neg h, stepPrediction_eq, stepExtra_eq]

theorem summarize_resp_json_obj (kvs : List (String × Json)) (h : kvs ≠ []) :
    summarize_resp_json (.obj kvs) =
      (match lookupKey kvs "choices" with
       | some (.arr cs) => Json.obj (setKey kvs "choices" (.arr (cs.map truncChoice)))
       | _ => Json.obj kvs) := by
  unfold summarize_resp_json
  dsimp only
  rw [if_neg h]

theorem jsonShape_summarize_req (x : Json) :
    jsonShape (summarize_req_json x) = jsonShape x := by
  cases x with
  | obj kvs =>
    by_cases h : kvs = []
    · subst h; rfl
    · rw [summarize_req_json_obj kvs h]
      show Json.obj (jsonShapeKvs _) = Json.obj (jsonShapeKvs kvs)
      rw [jsonShapeKvs_extraStep, jsonShapeKvs_objContentStep,
          jsonShapeKvs_stepStrKey, jsonShapeKvs_stepStrKey, jsonShapeKvs_stepMessages]
  | null => rfl
  | bool b => rfl
  | num q => rfl
  | str s => rfl
  | arr l => rfl

theorem jsonShape_summarize_resp (x : Json) :
    jsonShape (summarize_resp_json x) = jsonShape x := by
  cases x with
  | obj kvs =>
    by_cases h : kvs = []
    · subst h; rfl
    · rw [summarize_resp_json_obj kvs h]
      cases hl : lookupKey kvs "choices" with
      | none => rfl
      | some v =>
        cases v with
        | arr cs =>
          dsimp only
          show Json.obj (jsonShapeKvs (setKey kvs "choices" (.arr (cs.map truncChoice)))) =
            Json.obj (jsonShapeKvs kvs)
          rw [jsonShapeKvs_setKey kvs "choices" _ _ hl (by
            show Json.arr (jsonShapeList (cs.map truncChoice)) = Json.arr (jsonShapeList cs)
            rw [jsonShapeList_map truncChoice cs (fun c _ => jsonShape_truncChoice c)])]
        | null => rfl
        | bool b => rfl
        | num q => rfl
        | str s => rfl
        | obj o => rfl
  | null => rfl
  | bool b => rfl
  | num q => rfl
  | str s => rfl
  | arr l => rfl

/-- 100-character condition on every truncatable field of a request body. -/
def reqFixedCond (data : Json) : Bool :=
  match data with
  | .obj kvs =>
    (match lookupKey kvs "messages" with
     | some (.arr ms) => ms.all msgFixed
     | _ => true) &&
    (match lookupKey kvs "prompt" with
     | some (.str s) => 100 ≤ s.length
     | _ => true) &&
    (match lookupKey kvs "suffix" with
     | some (.str s) => 100 ≤ s.length
     | _ => true) &&
    (match lookupKey kvs "prediction" with
     | some (.obj pk) =>
       (match lookupKey pk "content" with
        | some (.str c) => 100 ≤ c.length
        | _ => true)
     | _ => true)
  | _ => true

/-- 100-character condition on every truncatable field of a response body. -/
def respFixedCond (data : Json) : Bool :=
  match data with
  | .obj kvs =>
    match lookupKey kvs "choices" with
    | some (.arr cs) => cs.all choiceFixed
    | _ => true
  | _ => true

theorem summarize_req_idem (x : Json) (hc : reqFixedCond x = true) :
    summarize_req_json (summarize_req_json x) = summarize_req_json x := by
  cases x with
  | null => rfl
  | bool b => rfl
  | num q => rfl
  | str s => rfl
  | arr l => rfl
  | obj kvs =>
    by_cases hnil : kvs = []
    · subst hnil; rfl
    · unfold reqFixedCond at hc
      rw [Bool.and_eq_true, Bool.and_eq_true, Bool.and_eq_true] at hc
      obtain ⟨⟨⟨hm, hp⟩, hs⟩, hpr⟩ := hc
      have hm' : ∀ ms, lookupKey kvs "messages" = some (.arr ms) → ms.all msgFixed = true := by
        intro ms h; rw [h] at hm; simpa using hm
      have hp' : ∀ s, lookupKey kvs "prompt" = some (.str s) → 100 ≤ s.length := by
        intro s h; rw [h] at hp; simpa using hp
      have hs' : ∀ s, lookupKey kvs "suffix" = some (.str s) → 100 ≤ s.length := by
        intro s h; rw [h] at hs; simpa using hs
      have hpr' : ∀ pk c, lookupKey kvs "prediction" = some (.obj pk) →
          lookupKey pk "content" = some (.str c) → 100 ≤ c.length := by
        intro pk c h1 h2
        rw [h1] at hpr
        dsimp only at hpr
        rw [h2] at hpr
        simpa using hpr
      have h1 := stepMessages_ne_nil kvs hnil
      have h2 := stepStrKey_ne_nil "prompt" _ h1
      have h3 := stepStrKey_ne_nil "suffix" _ h2
      have h4 := objContentStep_ne_nil "prediction" _ h3
      have h5 := extraStep_ne_nil _ h4
      rw [summarize_req_json_obj kvs hnil]
      rw [summarize_req_json_obj _ h5]
      have hm5 : ∀ ms', lookupKey (extraStep (objContentStep "prediction"
          (stepStrKey "suffix" (stepStrKey "prompt" (stepMessages kvs))))) "messages" =
          some (.arr ms') → ms'.map truncMsg = ms' := by
        intro ms' h'
        rw [lookupKey_extraStep _ _ (by decide),
            lookupKey_objContentStep _ _ _ (by decide),
            lookupKey_stepStrKey _ _ _ (by decide),
            lookupKey_stepStrKey _ _ _ (by decide)] at h'
        exact stepMessages_post kvs hm' ms' h'
      have hp5 : ∀ s', lookupKey (extraStep (objContentStep "prediction"
          (stepStrKey "suffix" (stepStrKey "prompt" (stepMessages kvs))))) "prompt" =
          some (.str s') → truncStr s' = s' := by
        intro s' h'
        rw [lookupKey_extraStep _ _ (by decide),
            lookupKey_objContentStep _ _ _ (by decide),
            lookupKey_stepStrKey _ _ _ (by decide)] at h'
        refine stepStrKey_post "prompt" _ ?_ s' h'
        intro s h
        rw [lookupKey_stepMessages _ _ (by decide)] at h
        exact hp' s h
      have hs5 : ∀ s', lookupKey (extraStep (objContentStep "prediction"
          (stepStrKey "suffix" (stepStrKey "prompt" (stepMessages kvs))))) "suffix" =
          some (.str s') → truncStr s' = s' := by
        intro s' h'
        rw [lookupKey_extraStep _ _ (by decide),
            lookupKey_objContentStep _ _ _ (by decide)] at h'
        refine stepStrKey_post "suffix" _ ?_ s' h'
        intro s h
        rw [lookupKey_stepStrKey _ _ _ (by decide),
            lookupKey_stepMessages _ _ (by decide)] at h
        exact hs' s h
      have hpr5 : ∀ pk', lookupKey (extraStep (objContentStep "prediction"
          (stepStrKey "suffix" (stepStrKey "prompt" (stepMessages kvs))))) "prediction" =
          some (.obj pk') → ∀ c', lookupKey pk' "content" = some (.str c') →
          truncStr c' = c' := by
        intro pk' h'
        rw [lookupKey_extraStep _ _ (by decide)] at h'
        refine objContentStep_post "prediction" _ ?_ pk' h'
        intro pk c hl1 hl2
        rw [lookupKey_stepStrKey _ _ _ (by decide),
            lookupKey_stepStrKey _ _ _ (by decide),
            lookupKey_stepMessages _ _ (by decide)] at hl1
        exact hpr' pk c hl1 hl2
      have hext5 := extraStep_post (objContentStep "prediction"
          (stepStrKey "suffix" (stepStrKey "prompt" (stepMessages kvs))))
      rw [stepMessages_id _ hm5, stepStrKey_id "prompt" _ hp5,
          stepStrKey_id "suffix" _ hs5, objContentStep_id "prediction" _ hpr5,
          extraStep_id _ hext5]

theorem summarize_resp_idem (x : Json) (hc : respFixedCond x = true) :
    summarize_resp_json (summarize_resp_json x) = summarize_resp_json x := by
  cases x with
  | null => rfl
  | bool b => rfl
  | num q => rfl
  | str s => rfl
  | arr l => rfl
  | obj kvs =>
    by_cases hnil : kvs = []
    · subst hnil; rfl
    · unfold respFixedCond at hc
      dsimp only at hc
      rw [summarize_resp_json_obj kvs hnil]
      cases hl : lookupKey kvs "choices" with
      | none =>
        dsimp only
        rw [summarize_resp_json_obj kvs hnil, hl]
      | some v =>
        cases v with
        | arr cs =>
          dsimp only
          rw [hl] at hc
          dsimp only at hc
          have hfix : (cs.map truncChoice).map truncChoice = cs.map truncChoice := by
            rw [List.map_map]
            refine List.map_congr_left ?_
            intro ch hch
            show truncChoice (truncChoice ch) = truncChoice ch
            exact truncChoice_fix ch (List.all_eq_true.mp hc ch hch)
          rw [summarize_resp_json_obj _ (setKey_ne_nil _ _ _), lookupKey_setKey_self]
          dsimp only
          rw [hfix, setKey_lookup_self _ _ _ (lookupKey_setKey_self _ _ _)]
        | null => dsimp only; rw [summarize_resp_json_obj kvs hnil, hl]
        | bool b => dsimp only; rw [summarize_resp_json_obj kvs hnil, hl]
        | num q => dsimp only; rw [summarize_resp_json_obj kvs hnil, hl]
        | str s => dsimp only; rw [summarize_resp_json_obj kvs hnil, hl]
        | obj o => dsimp only; rw [summarize_resp_json_obj kvs hnil, hl]

/-- Claim C4 (amended): both summarizers always preserve the key set,
nesting, sibling order and value types of their input (the `jsonShape` is
unchanged).  The idempotence half of the claim is false as stated — the
truncation marker is appended unconditionally, also to short strings (see
the counterexample) — and holds whenever every truncatable textual field of
the input is at least 100 characters long. -/
theorem C4_summarizer (x : Json) (hreq : reqFixedCond x = true)
    (hresp : respFixedCond x = true) :
    jsonShape (summarize_req_json x) = jsonShape x ∧
    jsonShape (summarize_resp_json x) = jsonShape x ∧
    summarize_req_json (summarize_req_json x) = summarize_req_json x ∧
    summarize_resp_json (summarize_resp_json x) = summarize_resp_json x :=
  ⟨jsonShape_summarize_req x, jsonShape_summarize_resp x,
   summarize_req_idem x hreq, summarize_resp_idem x hresp⟩

/-- Counterexample to C4 as stated: `s[:100] + "..."` grows a short string,
so applying the request summarizer twice differs from applying it once. -/
theorem C4_counterexample :
    summarize_req_json (summarize_req_json (Json.obj [("prompt", Json.str "hi")])) ≠
      summarize_req_json (Json.obj [("prompt", Json.str "hi")]) := by
  decide

def c4long : String :=
  "0123456789012345678901234567890123456789012345678901234567890123456789012345678901234567890123456789"

def c4x : Json :=
  .obj [("prompt", .str c4long),
        ("choices", .arr [.obj [("text", .str c4long)]])]

/-- Witness for the amended C4 at a body whose truncatable fields are
exactly 100 characters long. -/
theorem C4_summarizer_witness :
    jsonShape (summarize_req_json c4x) = jsonShape c4x ∧
    jsonShape (summarize_resp_json c4x) = jsonShape c4x ∧
    summarize_req_json (summarize_req_json c4x) = summarize_req_json c4x ∧
    summarize_resp_json (summarize_resp_json c4x) = summarize_resp_json c4x :=
  C4_summarizer c4x (by decide) (by decide)

end CopilotMon
